import Mathlib

/-!
Shallow embedding of the moonshine_save snapshot save/load engine.

The live entity store (a bevy `World`) is modelled as an association list of
entities, each an id paired with an association list of components keyed by
type.  Component values carry plain data plus a list of entity references
(the part that bevy remaps through `MapEntities` during scene writing).
Fallible external calls (file system, RON serialization) are modelled by
explicit success flags; the scene codec is modelled as the identity on the
`Scene` data (a deterministic codec: equal scenes give equal bytes).
-/

namespace MoonshineSave

abbrev EntityId := Nat
abbrev TypeKey := Nat

/-- A component value: opaque payload data plus the entity references it
contains (remapped through the entity map on load). -/
structure CompVal where
  data : Nat
  refs : List EntityId
deriving DecidableEq, Repr

/-- The components attached to one entity, keyed by component type. -/
abbrev Comps := List (TypeKey × CompVal)

def lookupKey : Comps → TypeKey → Option CompVal
  | [], _ => none
  | kv :: rest, k => if kv.1 = k then some kv.2 else lookupKey rest k

def hasKey (cs : Comps) (k : TypeKey) : Bool :=
  (lookupKey cs k).isSome

/-- Component insertion (bevy `EntityWorldMut::insert`): overwrite the
existing component of that type, or attach a new one. -/
def insertKey : Comps → TypeKey → CompVal → Comps
  | [], k, v => [(k, v)]
  | kv :: rest, k, v => if kv.1 = k then (k, v) :: rest else kv :: insertKey rest k v

/-- Component removal (bevy `EntityWorldMut::remove`). -/
def removeKey (cs : Comps) (k : TypeKey) : Comps :=
  cs.filter (fun kv => decide (kv.1 ≠ k))

/-- The live store: entities with their components, world resources, and the
allocator cursor for fresh entity ids. -/
structure World where
  entities : List (EntityId × Comps)
  resources : List (TypeKey × CompVal)
  nextId : EntityId
deriving DecidableEq, Repr

def findComps : List (EntityId × Comps) → EntityId → Option Comps
  | [], _ => none
  | ec :: rest, e => if ec.1 = e then some ec.2 else findComps rest e

def World.getComps (w : World) (e : EntityId) : Option Comps :=
  findComps w.entities e

def World.isLive (w : World) (e : EntityId) : Bool :=
  (w.getComps e).isSome

def World.lookupComp (w : World) (e : EntityId) (k : TypeKey) : Option CompVal :=
  match w.getComps e with
  | some cs => lookupKey cs k
  | none => none

/-- Apply `f` to the components of entity `e` (the effect of one
`EntityWorldMut` operation). -/
def World.updateComps (w : World) (e : EntityId) (f : Comps → Comps) : World :=
  { w with entities := w.entities.map (fun ec => if ec.1 = e then (ec.1, f ec.2) else ec) }

def World.insertComp (w : World) (e : EntityId) (k : TypeKey) (v : CompVal) : World :=
  w.updateComps e (fun cs => insertKey cs k v)

def World.removeComp (w : World) (e : EntityId) (k : TypeKey) : World :=
  w.updateComps e (fun cs => removeKey cs k)

def World.spawnEmpty (w : World) : World × EntityId :=
  ({ w with entities := w.entities ++ [(w.nextId, [])], nextId := w.nextId + 1 }, w.nextId)

def World.despawn (w : World) (e : EntityId) : World :=
  { w with entities := w.entities.filter (fun ec => decide (ec.1 ≠ e)) }

/-- Well-formedness of a live store: distinct entity ids, all below the
allocator cursor, and no duplicate component type on one entity. -/
def World.WF (w : World) : Prop :=
  (w.entities.map Prod.fst).Nodup ∧
  (∀ ec ∈ w.entities, ec.1 < w.nextId) ∧
  (∀ ec ∈ w.entities, (ec.2.map Prod.fst).Nodup)

instance (w : World) : Decidable w.WF := by
  unfold World.WF; infer_instance

/-- Type key of the `Save` marker component (`save.rs`: `struct Save`).
`Save` derives no `Reflect`, so it is never part of the serialization
registry. -/
def saveKey : TypeKey := 0

/-- Type key of the `Unload` marker component (`load.rs`: `struct Unload`). -/
def unloadKey : TypeKey := 1

def saveVal : CompVal := ⟨0, []⟩

/-- The set of reflect-registered (serializable) type keys
(`AppTypeRegistry`). -/
abbrev Registry := List TypeKey

-- ---------------------------------------------------------------------------
-- Component mapper (lib.rs: MapComponent / SceneMapper / ComponentMapperImpl)
-- ---------------------------------------------------------------------------

/-- One registered `ComponentMapperImpl<T, M>`: input component type `T`,
output type `M::Output`, and the `map_component` transform. -/
structure MapRule where
  inKey : TypeKey
  outKey : TypeKey
  f : CompVal → CompVal

/-- `SceneMapper`: the ordered collection of component mappers. -/
structure SceneMapper where
  rules : List MapRule

/-- `SceneMapper::map`: pushes a new mapper onto the list. -/
def SceneMapper.map (sm : SceneMapper) (r : MapRule) : SceneMapper :=
  ⟨sm.rules ++ [r]⟩

def SceneMapper.isEmpty (sm : SceneMapper) : Bool :=
  sm.rules.isEmpty

/-- `ComponentMapperImpl::apply`: if the input component is present, insert
its image under the output type (the input component is untouched). -/
def applyRule (r : MapRule) (w : World) (e : EntityId) : World :=
  match w.lookupComp e r.inKey with
  | some v => w.insertComp e r.outKey (r.f v)
  | none => w

/-- `ComponentMapperImpl::replace`: take (remove) the input component and
insert its image. -/
def replaceRule (r : MapRule) (w : World) (e : EntityId) : World :=
  match w.lookupComp e r.inKey with
  | some v => (w.removeComp e r.inKey).insertComp e r.outKey (r.f v)
  | none => w

/-- `ComponentMapperImpl::undo`: remove the output component. -/
def undoRule (r : MapRule) (w : World) (e : EntityId) : World :=
  w.removeComp e r.outKey

/-- `SceneMapper::apply`: run every mapper, in registration order, on one
entity. -/
def SceneMapper.apply (sm : SceneMapper) (w : World) (e : EntityId) : World :=
  sm.rules.foldl (fun acc r => applyRule r acc e) w

/-- `SceneMapper::replace`: run every mapper, in registration order. -/
def SceneMapper.replace (sm : SceneMapper) (w : World) (e : EntityId) : World :=
  sm.rules.foldl (fun acc r => replaceRule r acc e) w

/-- `SceneMapper::undo`: run every mapper, in registration order. -/
def SceneMapper.undo (sm : SceneMapper) (w : World) (e : EntityId) : World :=
  sm.rules.foldl (fun acc r => undoRule r acc e) w

-- ---------------------------------------------------------------------------
-- Filters (save.rs: EntityFilter, bevy SceneFilter)
-- ---------------------------------------------------------------------------

/-- `EntityFilter` (save.rs): allow only the listed entities, or block the
listed entities. -/
inductive EntityFilter
  | Allow (s : List EntityId)
  | Block (s : List EntityId)
deriving Repr

/-- `EntityFilter::any`: blocks nothing. -/
def EntityFilter.any : EntityFilter := .Block []

/-- `SaveWorld::filter_entity` (save.rs, lines 183-188). -/
def EntityFilter.filterEntity : EntityFilter → EntityId → Bool
  | .Allow s, e => s.contains e
  | .Block s, e => !(s.contains e)

/-- bevy `SceneFilter`: the attachment/resource type filter. -/
inductive SceneFilter
  | Unset
  | Allowlist (l : List TypeKey)
  | Denylist (l : List TypeKey)
deriving Repr

def SceneFilter.allow_all : SceneFilter := .Denylist []

def SceneFilter.deny_all : SceneFilter := .Allowlist []

/-- bevy `SceneFilter::is_allowed`. -/
def SceneFilter.allows : SceneFilter → TypeKey → Bool
  | .Unset, _ => true
  | .Allowlist l, k => l.contains k
  | .Denylist l, k => !(l.contains k)

-- ---------------------------------------------------------------------------
-- Snapshot model (bevy DynamicScene)
-- ---------------------------------------------------------------------------

/-- A `DynamicScene`: extracted entities in extraction order plus extracted
resources. -/
structure Scene where
  entities : List (EntityId × Comps)
  resources : List (TypeKey × CompVal)
deriving DecidableEq, Repr

/-- `SaveInput` (save.rs, lines 218-235). -/
structure SaveInput where
  entities : EntityFilter
  resources : SceneFilter
  components : SceneFilter
  mapper : SceneMapper

/-- `SaveInput::default` (save.rs, lines 237-246). -/
def SaveInput.default : SaveInput :=
  { entities := .any
    components := .allow_all
    resources := .deny_all
    mapper := ⟨[]⟩ }

/-- `Saved`: the scene produced by a save, or decoded by a load (load.rs
additionally threads the post-load mapper through this value). -/
structure Saved where
  scene : Scene
  mapper : SceneMapper

/-- `SaveError` (save.rs, lines 328-334). -/
inductive SaveError
  | Ron
  | Io
deriving DecidableEq, Repr

/-- `LoadError` (load.rs, lines 146-156). -/
inductive LoadError
  | Io
  | De
  | Ron
  | Scene
deriving DecidableEq, Repr

-- ---------------------------------------------------------------------------
-- Save pipeline (save.rs: save_world / save_on)
-- ---------------------------------------------------------------------------

/-- The three `SaveOutput` variants. -/
inductive SaveOutputKind
  | File
  | Stream
  | Drop

/-- Success flags of the external calls made by the write phase of
`save_world`: `create_dir_all`, `scene.serialize`, and
`fs::write`/`write_all`. -/
structure SaveEnv where
  mkdirOk : Bool
  serializeOk : Bool
  writeOk : Bool

/-- The `query_filtered::<Entity, E::SaveFilter>` pass followed by
`filter_entity` (save.rs, lines 366-370).  `queryFilter` models the
type-level `SaveFilter` (`With<Save>` by default, trivial for
`SaveWorld<()>`). -/
def selectEntities (queryFilter : Comps → Bool) (flt : EntityFilter) (w : World) :
    List EntityId :=
  (w.entities.filter (fun ec => queryFilter ec.2 && flt.filterEntity ec.1)).map
    (fun ec => ec.1)

/-- `DefaultSaveFilter = With<Save>`. -/
def defaultSaveQuery (cs : Comps) : Bool := hasKey cs saveKey

def extractComps (reg : Registry) (cf : SceneFilter) (cs : Comps) : Comps :=
  cs.filter (fun kv => reg.contains kv.1 && cf.allows kv.1)

/-- `DynamicSceneBuilder::from_world ... .build()` (save.rs, lines 376-381):
extract, per selected entity in selection order, every registered component
passing the component filter; extract every registered resource passing the
resource filter. -/
def buildScene (reg : Registry) (cf rf : SceneFilter) (w : World)
    (sel : List EntityId) : Scene :=
  { entities := sel.map (fun e => (e, extractComps reg cf ((w.getComps e).getD [])))
    resources := w.resources.filter (fun kv => reg.contains kv.1 && rf.allows kv.1) }

/-- The write phase of `save_world` (save.rs, lines 387-410): serialize the
scene and deliver the bytes to the configured output. -/
def writeOutput (out : SaveOutputKind) (env : SaveEnv) (sc : Scene) :
    Except SaveError Saved :=
  match out with
  | .File =>
    if !env.mkdirOk then .error .Io
    else if !env.serializeOk then .error .Ron
    else if !env.writeOk then .error .Io
    else .ok ⟨sc, ⟨[]⟩⟩
  | .Stream =>
    if !env.serializeOk then .error .Ron
    else if !env.writeOk then .error .Io
    else .ok ⟨sc, ⟨[]⟩⟩
  | .Drop => .ok ⟨sc, ⟨[]⟩⟩

/-- `save_world` (save.rs, lines 363-411): select, pre-map, build the scene,
unmap, then write.  Returns the result together with the final world. -/
def save_world (queryFilter : Comps → Bool) (input : SaveInput)
    (out : SaveOutputKind) (env : SaveEnv) (reg : Registry) (w : World) :
    Except SaveError Saved × World :=
  let sel := selectEntities queryFilter input.entities w
  let w1 := sel.foldl (fun acc e => input.mapper.apply acc e) w
  let sc := buildScene reg input.components input.resources w1 sel
  let w2 := sel.foldl (fun acc e => input.mapper.undo acc e) w1
  (writeOutput out env sc, w2)

/-- The `OnSave` terminal event (save.rs, lines 324-325). -/
inductive SaveEvt
  | OnSave (r : Except SaveError Saved)

/-- `save_on` (save.rs, lines 354-361): run `save_world` and trigger exactly
one `OnSave` event carrying the result. -/
def save_on (queryFilter : Comps → Bool) (input : SaveInput)
    (out : SaveOutputKind) (env : SaveEnv) (reg : Registry) (w : World) :
    World × Except SaveError Saved × List SaveEvt :=
  ((save_world queryFilter input out env reg w).2,
   (save_world queryFilter input out env reg w).1,
   [SaveEvt.OnSave (save_world queryFilter input out env reg w).1])

-- ---------------------------------------------------------------------------
-- Load pipeline (load.rs)
-- ---------------------------------------------------------------------------

/-- Success flags of the external calls made by the read phase:
`fs::read`/`read_to_end` (Io), `ron::Deserializer::from_bytes` (De), and
`SceneDeserializer::deserialize` (Ron). -/
structure LoadEnv where
  ioOk : Bool
  parseOk : Bool
  decodeOk : Bool

/-- `Loaded` (load.rs, lines 129-133): the resulting entity map. -/
abbrev EMap := List (EntityId × EntityId)

structure Loaded where
  entity_map : EMap
deriving DecidableEq, Repr

def lookupE : EMap → EntityId → Option EntityId
  | [], _ => none
  | p :: rest, e => if p.1 = e then some p.2 else lookupE rest e

/-- `read_static_file` / `read_file` / `read_stream` (load.rs): read the
source bytes and decode them into `Saved` data.  `data` is the scene the
bytes decode to when everything succeeds. -/
def readSource (env : LoadEnv) (data : Scene) (mapper : SceneMapper) :
    Except LoadError Saved :=
  if !env.ioOk then .error .Io
  else if !env.parseOk then .error .De
  else if !env.decodeOk then .error .Ron
  else .ok ⟨data, mapper⟩

/-- `DefaultUnloadFilter = Or<(With<Save>, With<Unload>)>` (load.rs,
lines 370-372). -/
def defaultUnloadFilter (cs : Comps) : Bool :=
  hasKey cs saveKey || hasKey cs unloadKey

/-- `unload` (load.rs, lines 375-390): on decoded data, despawn every entity
matching the unload filter; on an upstream error, pass it through without
touching the world.  (Descendant cascading of bevy `despawn` concerns the
external store's hierarchy bookkeeping and is outside this model.) -/
def unload (filter : Comps → Bool) (r : Except LoadError Saved) (w : World) :
    Except LoadError Saved × World :=
  match r with
  | .error e => (.error e, w)
  | .ok saved =>
    let es := (w.entities.filter (fun ec => filter ec.2)).map (fun ec => ec.1)
    (.ok saved, es.foldl (fun acc e => acc.despawn e) w)

/-- First pass of bevy `DynamicScene::write_to_world_with`: make sure every
scene entity has a map entry, spawning a fresh empty world entity for each
new one. -/
def allocSceneEntities (sc : List (EntityId × Comps)) (w : World) (em : EMap) :
    World × EMap :=
  match sc with
  | [] => (w, em)
  | (sid, _) :: rest =>
    match lookupE em sid with
    | some _ => allocSceneEntities rest w em
    | none => allocSceneEntities rest (w.spawnEmpty).1 (em ++ [(sid, (w.spawnEmpty).2)])

/-- bevy `SceneEntityMapper::map_entity`: translate one reference through the
entity map; a reference absent from the map is assigned a fresh placeholder
id (recorded in the map) that is not a live entity. -/
def mapRef (st : World × EMap) (r : EntityId) : (World × EMap) × EntityId :=
  match lookupE st.2 r with
  | some l => (st, l)
  | none =>
    let d := st.1.nextId
    ((({ st.1 with nextId := d + 1 }, st.2 ++ [(r, d)])), d)

def mapRefs (st : World × EMap) (rs : List EntityId) :
    (World × EMap) × List EntityId :=
  match rs with
  | [] => (st, [])
  | r :: rest =>
    ((mapRefs (mapRef st r).1 rest).1,
     (mapRef st r).2 :: (mapRefs (mapRef st r).1 rest).2)

/-- Second pass of `write_to_world_with`, one scene entity: write each scene
component onto the mapped world entity, remapping its entity references. -/
def writeEntityComps (lid : EntityId) (cs : Comps) (st : World × EMap) :
    World × EMap :=
  match cs with
  | [] => st
  | (k, v) :: rest =>
    writeEntityComps lid rest
      (((mapRefs st v.refs).1.1.insertComp lid k ⟨v.data, (mapRefs st v.refs).2⟩,
        (mapRefs st v.refs).1.2))

/-- Second pass of `write_to_world_with`, all scene entities in scene
order. -/
def writeSceneEntities (sc : List (EntityId × Comps)) (st : World × EMap) :
    World × EMap :=
  match sc with
  | [] => st
  | (sid, cs) :: rest =>
    let lid := (lookupE st.2 sid).getD 0
    writeSceneEntities rest (writeEntityComps lid cs st)

/-- Every scene type key is present in the type registry; `write_to_world`
fails with a `Scene` error otherwise (bevy `SceneSpawnError`). -/
def sceneRegistered (reg : Registry) (s : Scene) : Bool :=
  s.entities.all (fun ec => ec.2.all (fun kv => reg.contains kv.1)) &&
  s.resources.all (fun kv => reg.contains kv.1)

/-- `write_to_world` (load.rs, lines 393-408): write the scene into the
world building the entity map, then run the post-load mapper `replace` over
the mapped entities. -/
def write_to_world (r : Except LoadError Saved) (reg : Registry) (w : World) :
    Except LoadError Loaded × World :=
  match r with
  | .error e => (.error e, w)
  | .ok saved =>
    if !(sceneRegistered reg saved.scene) then (.error .Scene, w)
    else
      let w0 := { w with resources :=
        saved.scene.resources.foldl (fun rs kv => insertKey rs kv.1 kv.2) w.resources }
      let a := allocSceneEntities saved.scene.entities w0 []
      let b := writeSceneEntities saved.scene.entities a
      let w3 :=
        if saved.mapper.isEmpty then b.1
        else b.2.foldl
          (fun acc p => if acc.isLive p.2 then saved.mapper.replace acc p.2 else acc) b.1
      (.ok ⟨b.2⟩, w3)

/-- `insert_into_loaded` (load.rs, lines 411-429): insert a clone of the
given bundle into every mapped entity that is still retrievable (a map entry
whose id is not a live entity is only reported to the error log). -/
def insert_into_loaded (bk : TypeKey) (bv : CompVal)
    (r : Except LoadError Loaded) (w : World) : Except LoadError Loaded × World :=
  match r with
  | .error e => (.error e, w)
  | .ok loaded =>
    (.ok loaded,
      loaded.entity_map.foldl
        (fun acc p => if acc.isLive p.2 then acc.insertComp p.2 bk bv else acc) w)

/-- The `OnLoaded` terminal event (load.rs, lines 142-143); it carries no
payload. -/
inductive LoadEvt
  | OnLoaded
deriving DecidableEq, Repr

/-- `insert_loaded` (load.rs, lines 436-444): on success insert the `Loaded`
resource and trigger `OnLoaded`; on failure only write the error log. -/
def insert_loaded (r : Except LoadError Loaded) : Option Loaded × List LoadEvt :=
  match r with
  | .ok loaded => (some loaded, [.OnLoaded])
  | .error _ => (none, [])

/-- The `load` pipeline (load.rs, lines 240-249): read, unload, write to
world, insert `Save` into loaded entities, finish.  Returns the final
world, the inserted `Loaded` resource (if any), and the triggered events. -/
def load_pipeline (env : LoadEnv) (data : Scene) (mapper : SceneMapper)
    (reg : Registry) (w : World) : World × Option Loaded × List LoadEvt :=
  let s1 := unload defaultUnloadFilter (readSource env data mapper) w
  let s2 := write_to_world s1.1 reg s1.2
  let s3 := insert_into_loaded saveKey saveVal s2.1 s2.2
  (s3.2, (insert_loaded s3.1).1, (insert_loaded s3.1).2)

-- ---------------------------------------------------------------------------
-- Basic lemmas about the store model
-- ---------------------------------------------------------------------------

theorem lookupKey_filter (cs : Comps) (q : TypeKey → Bool) (k : TypeKey) :
    lookupKey (cs.filter (fun kv => q kv.1)) k
      = if q k then lookupKey cs k else none := by
  induction cs with
  | nil => simp [lookupKey]
  | cons kv rest ih =>
    by_cases hq : q kv.1 <;> by_cases hk : kv.1 = k <;>
      simp_all [lookupKey, List.filter_cons]

theorem lookupKey_none_iff (cs : Comps) (k : TypeKey) :
    lookupKey cs k = none ↔ ∀ kv ∈ cs, kv.1 ≠ k := by
  induction cs with
  | nil => simp [lookupKey]
  | cons kv rest ih =>
    by_cases hk : kv.1 = k <;> simp_all [lookupKey]

theorem mem_of_lookupKey (cs : Comps) (k : TypeKey) (v : CompVal)
    (h : lookupKey cs k = some v) : (k, v) ∈ cs := by
  induction cs with
  | nil => simp [lookupKey] at h
  | cons kv rest ih =>
    by_cases hk : kv.1 = k
    · simp only [lookupKey, hk, if_pos, ite_true, Option.some.injEq] at h
      exact List.mem_cons.2 (Or.inl (Prod.ext_iff.2 ⟨hk.symm, h.symm⟩))
    · simp only [lookupKey, hk, ite_false] at h
      exact List.mem_cons.2 (Or.inr (ih h))

theorem findComps_mapIf (l : List (EntityId × Comps)) (P : EntityId → Prop)
    [DecidablePred P] (T : Comps → Comps) (e : EntityId) :
    findComps (l.map (fun ec => if P ec.1 then (ec.1, T ec.2) else ec)) e
      = if P e then (findComps l e).map T else findComps l e := by
  induction l with
  | nil => by_cases h : P e <;> simp [findComps, h]
  | cons ec rest ih =>
    by_cases he : ec.1 = e <;> by_cases hp : P ec.1 <;>
      simp_all [findComps]

theorem getComps_mapIf (w : World) (P : EntityId → Prop) [DecidablePred P]
    (T : Comps → Comps) (e : EntityId) :
    (World.getComps
        { w with entities :=
            w.entities.map (fun ec => if P ec.1 then (ec.1, T ec.2) else ec) } e)
      = if P e then (w.getComps e).map T else w.getComps e :=
  findComps_mapIf w.entities P T e

theorem keys_mapIf (l : List (EntityId × Comps)) (P : EntityId → Prop)
    [DecidablePred P] (T : Comps → Comps) :
    (l.map (fun ec => if P ec.1 then (ec.1, T ec.2) else ec)).map Prod.fst
      = l.map Prod.fst := by
  induction l with
  | nil => rfl
  | cons ec rest ih => by_cases hp : P ec.1 <;> simp [hp, ih]

theorem getComps_updateComps (w : World) (e e' : EntityId) (f : Comps → Comps) :
    (w.updateComps e f).getComps e'
      = if e' = e then (w.getComps e').map f else w.getComps e' :=
  findComps_mapIf w.entities (fun x => x = e) f e'

theorem findComps_of_mem_nodup :
    ∀ (l : List (EntityId × Comps)) (e : EntityId) (cs : Comps),
      (l.map Prod.fst).Nodup → (e, cs) ∈ l → findComps l e = some cs := by
  intro l
  induction l with
  | nil => intro e cs _ h; simp at h
  | cons ec rest ih =>
    intro e cs hnd h
    simp only [List.map_cons, List.nodup_cons] at hnd
    rcases List.mem_cons.1 h with h | h
    · rw [← h]; simp [findComps]
    · have hne : ec.1 ≠ e := by
        intro hc
        exact hnd.1 (hc ▸ (List.mem_map.2 ⟨(e, cs), h, rfl⟩))
      simp only [findComps, hne, ite_false]
      exact ih e cs hnd.2 h

theorem getComps_of_mem_nodup (w : World) (e : EntityId) (cs : Comps)
    (hnd : (w.entities.map Prod.fst).Nodup)
    (h : (e, cs) ∈ w.entities) : w.getComps e = some cs :=
  findComps_of_mem_nodup w.entities e cs hnd h

theorem World.ext3 (a b : World) (h1 : a.entities = b.entities)
    (h2 : a.resources = b.resources) (h3 : a.nextId = b.nextId) : a = b := by
  cases a; cases b; simp_all

theorem map_self {α : Type} (l : List α) (f : α → α) (h : ∀ a ∈ l, f a = a) :
    l.map f = l := by
  induction l with
  | nil => rfl
  | cons a rest ih =>
    rw [List.map_cons, h a (List.mem_cons_self _ _),
      ih (fun b hb => h b (List.mem_cons_of_mem _ hb))]

-- ---------------------------------------------------------------------------
-- Save pipeline: closed form of the world after a save
-- ---------------------------------------------------------------------------

/-- Components-level view of one `apply` step. -/
def applyRuleC (r : MapRule) (cs : Comps) : Comps :=
  match lookupKey cs r.inKey with
  | some v => insertKey cs r.outKey (r.f v)
  | none => cs

/-- Components-level view of `SceneMapper::apply` on one entity. -/
def applyAllC (rules : List MapRule) (cs : Comps) : Comps :=
  rules.foldl (fun acc r => applyRuleC r acc) cs

/-- Components-level view of `SceneMapper::undo` on one entity. -/
def undoAllC (rules : List MapRule) (cs : Comps) : Comps :=
  rules.foldl (fun acc r => removeKey acc r.outKey) cs

theorem updateComps_comp (w : World) (e : EntityId) (f g : Comps → Comps) :
    (w.updateComps e f).updateComps e g = w.updateComps e (fun cs => g (f cs)) := by
  refine World.ext3 _ _ ?_ rfl rfl
  simp only [World.updateComps, List.map_map]
  apply List.map_congr_left
  intro ec _
  by_cases h : ec.1 = e <;> simp [h]

theorem updateComps_keys (w : World) (e : EntityId) (f : Comps → Comps) :
    (w.updateComps e f).entities.map Prod.fst = w.entities.map Prod.fst :=
  keys_mapIf w.entities (fun x => x = e) f

theorem updateComps_id_nodup (w : World) (e : EntityId) (f : Comps → Comps)
    (hnd : (w.entities.map Prod.fst).Nodup)
    (h : ∀ cs, w.getComps e = some cs → f cs = cs) :
    w.updateComps e f = w := by
  refine World.ext3 _ _ ?_ rfl rfl
  simp only [World.updateComps]
  have : ∀ ec ∈ w.entities, (if ec.1 = e then (ec.1, f ec.2) else ec) = ec := by
    intro ec hec
    by_cases he : ec.1 = e
    · have hg : w.getComps ec.1 = some ec.2 := getComps_of_mem_nodup w ec.1 ec.2 hnd hec
      rw [if_pos he, h ec.2 (he ▸ hg)]
    · rw [if_neg he]
  exact map_self w.entities _ this

theorem updateComps_congr_nodup (w : World) (e : EntityId) (f g : Comps → Comps)
    (hnd : (w.entities.map Prod.fst).Nodup)
    (h : ∀ cs, w.getComps e = some cs → f cs = g cs) :
    w.updateComps e f = w.updateComps e g := by
  refine World.ext3 _ _ ?_ rfl rfl
  simp only [World.updateComps]
  apply List.map_congr_left
  intro ec hec
  by_cases he : ec.1 = e
  · have hg : w.getComps ec.1 = some ec.2 := getComps_of_mem_nodup w ec.1 ec.2 hnd hec
    rw [if_pos he, if_pos he, h ec.2 (he ▸ hg)]
  · rw [if_neg he, if_neg he]

theorem applyRule_eq_updateComps (r : MapRule) (w : World) (e : EntityId)
    (hnd : (w.entities.map Prod.fst).Nodup) :
    applyRule r w e = w.updateComps e (applyRuleC r) := by
  cases hlc : w.lookupComp e r.inKey with
  | none =>
    have h1 : applyRule r w e = w := by
      unfold applyRule; rw [hlc]
    rw [h1]
    refine (updateComps_id_nodup w e _ hnd ?_).symm
    intro cs hcs
    have hk : lookupKey cs r.inKey = none := by
      simpa [World.lookupComp, hcs] using hlc
    simp [applyRuleC, hk]
  | some v =>
    have h1 : applyRule r w e = w.insertComp e r.outKey (r.f v) := by
      unfold applyRule; rw [hlc]
    rw [h1]
    unfold World.insertComp
    refine updateComps_congr_nodup w e _ _ hnd ?_
    intro cs hcs
    have hk : lookupKey cs r.inKey = some v := by
      simpa [World.lookupComp, hcs] using hlc
    simp [applyRuleC, hk]

theorem applyRule_keys (r : MapRule) (w : World) (e : EntityId) :
    (applyRule r w e).entities.map Prod.fst = w.entities.map Prod.fst := by
  unfold applyRule
  cases hl : w.lookupComp e r.inKey with
  | none => rfl
  | some v => exact updateComps_keys w e _

theorem apply_eq_updateComps (sm : SceneMapper) (w : World) (e : EntityId)
    (hnd : (w.entities.map Prod.fst).Nodup) :
    sm.apply w e = w.updateComps e (applyAllC sm.rules) := by
  rcases sm with ⟨rules⟩
  induction rules generalizing w with
  | nil =>
    refine (updateComps_id_nodup w e _ hnd ?_).symm
    intro cs _
    rfl
  | cons r rs ih =>
    have h1 : SceneMapper.apply ⟨r :: rs⟩ w e
        = SceneMapper.apply ⟨rs⟩ (applyRule r w e) e := rfl
    rw [h1, ih (applyRule r w e) (by rw [applyRule_keys]; exact hnd),
      applyRule_eq_updateComps r w e hnd, updateComps_comp]
    rfl

theorem updateComps_id (w : World) (e : EntityId) :
    w.updateComps e (fun cs => cs) = w := by
  refine World.ext3 _ _ ?_ rfl rfl
  simp only [World.updateComps, ite_self]
  exact map_self w.entities _ (fun ec _ => rfl)

theorem undo_eq_updateComps (sm : SceneMapper) (w : World) (e : EntityId) :
    sm.undo w e = w.updateComps e (undoAllC sm.rules) := by
  rcases sm with ⟨rules⟩
  induction rules generalizing w with
  | nil => exact (updateComps_id w e).symm
  | cons r rs ih =>
    have h1 : SceneMapper.undo ⟨r :: rs⟩ w e
        = SceneMapper.undo ⟨rs⟩ (undoRule r w e) e := rfl
    rw [h1, ih (undoRule r w e)]
    show (w.updateComps e _).updateComps e _ = _
    rw [updateComps_comp]
    rfl

theorem foldl_updateComps (F : Comps → Comps) :
    ∀ (sel : List EntityId) (w : World), sel.Nodup →
      sel.foldl (fun acc e => acc.updateComps e F) w
        = { w with entities := w.entities.map (fun ec => if ec.1 ∈ sel then (ec.1, F ec.2) else ec) } := by
  intro sel
  induction sel with
  | nil =>
    intro w _
    refine World.ext3 _ _ ?_ rfl rfl
    show w.entities = w.entities.map (fun ec => if ec.1 ∈ ([] : List EntityId) then (ec.1, F ec.2) else ec)
    exact (map_self w.entities _ (fun ec _ => by simp)).symm
  | cons e rest ih =>
    intro w hnd
    rw [List.foldl_cons, ih (w.updateComps e F) (List.nodup_cons.1 hnd).2]
    refine World.ext3 _ _ ?_ rfl rfl
    show (w.updateComps e F).entities.map _ = _
    simp only [World.updateComps, List.map_map]
    apply List.map_congr_left
    intro ec _
    by_cases h1 : ec.1 = e
    · have h2 : e ∉ rest := (List.nodup_cons.1 hnd).1
      simp [Function.comp, h1, h2]
    · by_cases h3 : ec.1 ∈ rest <;> simp [Function.comp, h1, h3]

theorem selectEntities_nodup (qf : Comps → Bool) (flt : EntityFilter) (w : World)
    (hnd : (w.entities.map Prod.fst).Nodup) :
    (selectEntities qf flt w).Nodup := by
  unfold selectEntities
  have hsub : ((w.entities.filter
      (fun ec => qf ec.2 && flt.filterEntity ec.1)).map (fun ec => ec.1)).Sublist
        (w.entities.map (fun ec => ec.1)) :=
    (List.filter_sublist _).map _
  exact hsub.nodup hnd

theorem save_world_final (qf : Comps → Bool) (input : SaveInput)
    (out : SaveOutputKind) (env : SaveEnv) (reg : Registry) (w : World)
    (hnd : (w.entities.map Prod.fst).Nodup) :
    (save_world qf input out env reg w).2
      = { w with entities := w.entities.map (fun ec => if ec.1 ∈ selectEntities qf input.entities w then (ec.1, undoAllC input.mapper.rules (applyAllC input.mapper.rules ec.2)) else ec) } := by
  have hselnodup := selectEntities_nodup qf input.entities w hnd
  have hfold : (save_world qf input out env reg w).2
      = (selectEntities qf input.entities w).foldl
          (fun acc e => input.mapper.undo acc e)
          ((selectEntities qf input.entities w).foldl
            (fun acc e => input.mapper.apply acc e) w) := rfl
  have happly : ∀ (sel : List EntityId) (w₀ : World),
      (w₀.entities.map Prod.fst).Nodup →
      sel.foldl (fun acc e => input.mapper.apply acc e) w₀
        = sel.foldl (fun acc e => acc.updateComps e (applyAllC input.mapper.rules)) w₀ := by
    intro sel
    induction sel with
    | nil => intro w₀ _; rfl
    | cons e rest ih =>
      intro w₀ h₀
      simp only [List.foldl_cons]
      rw [apply_eq_updateComps input.mapper w₀ e h₀]
      exact ih _ (by rw [updateComps_keys]; exact h₀)
  have hundo : (fun acc e => input.mapper.undo acc e)
      = (fun (acc : World) (e : EntityId) => acc.updateComps e (undoAllC input.mapper.rules)) := by
    funext acc e
    exact undo_eq_updateComps input.mapper acc e
  rw [hfold, happly _ w hnd, foldl_updateComps _ _ w hselnodup, hundo,
    foldl_updateComps _ _ _ (by exact hselnodup)]
  refine World.ext3 _ _ ?_ rfl rfl
  simp only [List.map_map]
  congr 1
  funext ec
  by_cases h1 : ec.1 ∈ selectEntities qf input.entities w <;> simp [h1]

-- ---------------------------------------------------------------------------
-- Restoration of the pre-save components
-- ---------------------------------------------------------------------------

theorem undoAllC_filter (rules : List MapRule) :
    ∀ cs : Comps, undoAllC rules cs
      = cs.filter (fun kv => decide (kv.1 ∉ rules.map MapRule.outKey)) := by
  induction rules with
  | nil => intro cs; simp [undoAllC]
  | cons r rs ih =>
    intro cs
    show undoAllC rs (removeKey cs r.outKey) = _
    rw [ih]
    unfold removeKey
    rw [List.filter_filter]
    congr 1
    funext kv
    by_cases h1 : kv.1 = r.outKey <;> by_cases h2 : kv.1 ∈ rs.map MapRule.outKey <;>
      simp [h1, h2]

theorem insertKey_append_of_notin (cs extra : Comps) (k : TypeKey) (v : CompVal)
    (h : ∀ kv ∈ cs, kv.1 ≠ k) :
    insertKey (cs ++ extra) k v = cs ++ insertKey extra k v := by
  induction cs with
  | nil => rfl
  | cons kv rest ih =>
    have hne : kv.1 ≠ k := h kv (List.mem_cons_self _ _)
    show insertKey (kv :: (rest ++ extra)) k v = _
    rw [insertKey, if_neg hne, ih (fun kv' h' => h kv' (List.mem_cons_of_mem _ h'))]
    rfl

theorem insertKey_mem (cs : Comps) (k : TypeKey) (v : CompVal) :
    ∀ kv ∈ insertKey cs k v, kv.1 = k ∨ kv ∈ cs := by
  induction cs with
  | nil =>
    intro kv h
    simp [insertKey] at h
    exact Or.inl (by rw [h])
  | cons c rest ih =>
    intro kv h
    by_cases hc : c.1 = k
    · rw [insertKey, if_pos hc] at h
      rcases List.mem_cons.1 h with h | h
      · exact Or.inl (by rw [h])
      · exact Or.inr (List.mem_cons_of_mem _ h)
    · rw [insertKey, if_neg hc] at h
      rcases List.mem_cons.1 h with h | h
      · exact Or.inr (h ▸ List.mem_cons_self _ _)
      · rcases ih kv h with h' | h'
        · exact Or.inl h'
        · exact Or.inr (List.mem_cons_of_mem _ h')

theorem applyAllC_extends (outs : List TypeKey) :
    ∀ (rules : List MapRule), (∀ r ∈ rules, r.outKey ∈ outs) →
    ∀ (cs extra : Comps), (∀ kv ∈ cs, kv.1 ∉ outs) → (∀ kv ∈ extra, kv.1 ∈ outs) →
      ∃ extra', applyAllC rules (cs ++ extra) = cs ++ extra'
        ∧ ∀ kv ∈ extra', kv.1 ∈ outs := by
  intro rules
  induction rules with
  | nil => exact fun _ cs extra _ h2 => ⟨extra, rfl, h2⟩
  | cons r rs ih =>
    intro hr cs extra h1 h2
    have hstep : ∃ extra₂, applyRuleC r (cs ++ extra) = cs ++ extra₂
        ∧ ∀ kv ∈ extra₂, kv.1 ∈ outs := by
      unfold applyRuleC
      cases hl : lookupKey (cs ++ extra) r.inKey with
      | none => exact ⟨extra, rfl, h2⟩
      | some v =>
        have hout : r.outKey ∈ outs := hr r (List.mem_cons_self _ _)
        refine ⟨insertKey extra r.outKey (r.f v), ?_, ?_⟩
        · exact insertKey_append_of_notin cs extra r.outKey (r.f v)
            (fun kv hkv hk => h1 kv hkv (hk ▸ hout))
        · intro kv hkv
          rcases insertKey_mem extra r.outKey (r.f v) kv hkv with h | h
          · exact h ▸ hout
          · exact h2 kv h
    obtain ⟨extra₂, he, hk⟩ := hstep
    have : applyAllC (r :: rs) (cs ++ extra) = applyAllC rs (cs ++ extra₂) := by
      show applyAllC rs (applyRuleC r (cs ++ extra)) = _
      rw [he]
    rw [this]
    exact ih (fun r' hr' => hr r' (List.mem_cons_of_mem _ hr')) cs extra₂ h1 hk

theorem restore_comps (rules : List MapRule) (cs : Comps)
    (h : ∀ r ∈ rules, lookupKey cs r.outKey = none) :
    undoAllC rules (applyAllC rules cs) = cs := by
  have h1 : ∀ kv ∈ cs, kv.1 ∉ rules.map MapRule.outKey := by
    intro kv hkv hmem
    obtain ⟨r, hr, heq⟩ := List.mem_map.1 hmem
    exact ((lookupKey_none_iff cs r.outKey).1 (h r hr)) kv hkv (heq ▸ rfl)
  obtain ⟨extra', happ, hkeys⟩ := applyAllC_extends (rules.map MapRule.outKey) rules
    (fun r hr => List.mem_map_of_mem _ hr) cs []
    h1 (by simp)
  rw [List.append_nil] at happ
  rw [happ, undoAllC_filter, List.filter_append]
  have hl : cs.filter (fun kv => decide (kv.1 ∉ rules.map MapRule.outKey)) = cs :=
    List.filter_eq_self.2 (fun kv hkv => by simpa using h1 kv hkv)
  have hr : extra'.filter (fun kv => decide (kv.1 ∉ rules.map MapRule.outKey)) = [] := by
    rw [List.filter_eq_nil_iff]
    intro kv hkv
    simpa using hkeys kv hkv
  rw [hl, hr, List.append_nil]

/-- After any save, the live world equals its pre-save state provided no
selected entity carried a component of a mapper output type before the save
(the mapper surrogates are added and then stripped). -/
theorem save_world_restores (qf : Comps → Bool) (input : SaveInput)
    (out : SaveOutputKind) (env : SaveEnv) (reg : Registry) (w : World)
    (hw : (w.entities.map Prod.fst).Nodup)
    (h : ∀ e ∈ selectEntities qf input.entities w, ∀ r ∈ input.mapper.rules,
        w.lookupComp e r.outKey = none) :
    (save_world qf input out env reg w).2 = w := by
  rw [save_world_final qf input out env reg w hw]
  refine World.ext3 _ _ ?_ rfl rfl
  show w.entities.map _ = w.entities
  have : ∀ ec ∈ w.entities,
      (if ec.1 ∈ selectEntities qf input.entities w
        then (ec.1, undoAllC input.mapper.rules (applyAllC input.mapper.rules ec.2))
        else ec) = ec := by
    intro ec hec
    by_cases hsel : ec.1 ∈ selectEntities qf input.entities w
    · have hg : w.getComps ec.1 = some ec.2 := getComps_of_mem_nodup w ec.1 ec.2 hw hec
      have hnone : ∀ r ∈ input.mapper.rules, lookupKey ec.2 r.outKey = none := by
        intro r hr
        have := h ec.1 hsel r hr
        simpa [World.lookupComp, hg] using this
      rw [if_pos hsel, restore_comps input.mapper.rules ec.2 hnone]
    · rw [if_neg hsel]
  exact map_self w.entities _ this

-- ---------------------------------------------------------------------------
-- Claim C3: mapper non-leak
-- ---------------------------------------------------------------------------

theorem save_world_getComps (qf : Comps → Bool) (input : SaveInput)
    (out : SaveOutputKind) (env : SaveEnv) (reg : Registry) (w : World)
    (hnd : (w.entities.map Prod.fst).Nodup) (e : EntityId) :
    ((save_world qf input out env reg w).2).getComps e
      = if e ∈ selectEntities qf input.entities w
        then (w.getComps e).map
          (fun cs => undoAllC input.mapper.rules (applyAllC input.mapper.rules cs))
        else w.getComps e := by
  rw [save_world_final qf input out env reg w hnd]
  show findComps (w.entities.map (fun ec => if ec.1 ∈ selectEntities qf input.entities w then (ec.1, undoAllC input.mapper.rules (applyAllC input.mapper.rules ec.2)) else ec)) e = _
  exact findComps_mapIf w.entities
    (fun x => x ∈ selectEntities qf input.entities w)
    (fun cs => undoAllC input.mapper.rules (applyAllC input.mapper.rules cs)) e

/-- Claim C3: after any save invocation — whichever way the write phase
ends — no selected entity carries any mapper-surrogate component at all (in
particular none that was not present before the save began), and the final
world state is identical across all write outcomes: the undo step runs
before every point at which a serialization or write error can abort the
pipeline. -/
theorem C3_mapper_non_leak (qf : Comps → Bool) (input : SaveInput)
    (out : SaveOutputKind) (env : SaveEnv) (reg : Registry) (w : World)
    (hw : w.WF) :
    (∀ e ∈ selectEntities qf input.entities w, ∀ r ∈ input.mapper.rules,
        ((save_world qf input out env reg w).2).lookupComp e r.outKey = none)
    ∧ (∀ env' : SaveEnv, ∀ out' : SaveOutputKind,
        (save_world qf input out env reg w).2
          = (save_world qf input out' env' reg w).2) := by
  constructor
  · intro e he r hr
    unfold World.lookupComp
    rw [save_world_getComps qf input out env reg w hw.1 e, if_pos he]
    cases hc : w.getComps e with
    | none => rfl
    | some cs =>
      show lookupKey (undoAllC input.mapper.rules (applyAllC input.mapper.rules cs))
        r.outKey = none
      rw [undoAllC_filter,
        lookupKey_filter (applyAllC input.mapper.rules cs)
          (fun k => decide (k ∉ input.mapper.rules.map MapRule.outKey)) r.outKey]
      have : r.outKey ∈ input.mapper.rules.map MapRule.outKey :=
        List.mem_map_of_mem _ hr
      simp [this]
  · intro env' out'; rfl

/-- Claim C3 witness: a concrete save with one mapper rule leaves the
selected entity without the surrogate component. -/
theorem C3_mapper_non_leak_witness :
    ((save_world (fun _ => true)
        { entities := .any, resources := .deny_all, components := .allow_all,
          mapper := ⟨[⟨2, 3, fun v => v⟩]⟩ } .Drop ⟨true, true, true⟩ [3]
        ⟨[(0, [(2, ⟨9, []⟩)])], [], 1⟩).2).lookupComp 0 3 = none :=
  (C3_mapper_non_leak (fun _ => true)
    { entities := .any, resources := .deny_all, components := .allow_all,
      mapper := ⟨[⟨2, 3, fun v => v⟩]⟩ } .Drop ⟨true, true, true⟩ [3]
    ⟨[(0, [(2, ⟨9, []⟩)])], [], 1⟩ (by decide)).1 0 (by decide) ⟨2, 3, fun v => v⟩
    (List.mem_cons_self _ _)

-- ---------------------------------------------------------------------------
-- Claim C4: post-unmap restoration
-- ---------------------------------------------------------------------------

/-- Claim C4 counterexample: a selected entity that already carried a
component of a mapper output type before the save began loses it — the undo
step removes the output component unconditionally, so the live world is not
restored to its pre-save shape. -/
theorem C4_counterexample :
    letI w : World := ⟨[(0, [(2, ⟨5, []⟩)])], [], 1⟩
    letI input : SaveInput :=
      { entities := .any, resources := .deny_all, components := .allow_all,
        mapper := ⟨[⟨7, 2, fun v => v⟩]⟩ }
    w.lookupComp 0 2 = some ⟨5, []⟩
    ∧ ((save_world (fun _ => true) input .Drop ⟨true, true, true⟩ [2] w).2).lookupComp 0 2
        = none
    ∧ (save_world (fun _ => true) input .Drop ⟨true, true, true⟩ [2] w).2 ≠ w :=
  ⟨rfl, rfl, by decide⟩

/-- Claim C4 amended: after the undo step the live world is exactly in its
pre-save shape — for every selected entity the components present and their
values equal what they were before the apply step ran — provided no selected
entity already carried a component of a mapper output type before the save
began; an entity that did carry one loses that component (see the
counterexample). -/
theorem C4_post_unmap_restores (qf : Comps → Bool) (input : SaveInput)
    (out : SaveOutputKind) (env : SaveEnv) (reg : Registry) (w : World)
    (hw : w.WF)
    (h : ∀ e ∈ selectEntities qf input.entities w, ∀ r ∈ input.mapper.rules,
        w.lookupComp e r.outKey = none) :
    (save_world qf input out env reg w).2 = w :=
  save_world_restores qf input out env reg w hw.1 h

/-- Claim C4 witness: a concrete save with a mapper rule restores a concrete
world exactly. -/
theorem C4_post_unmap_restores_witness :
    (save_world defaultSaveQuery
        { entities := .any, resources := .deny_all, components := .allow_all,
          mapper := ⟨[⟨2, 3, fun v => ⟨v.data + 1, []⟩⟩]⟩ } .Drop
        ⟨true, true, true⟩ [3]
        ⟨[(0, [(saveKey, saveVal), (2, ⟨9, []⟩)])], [], 1⟩).2
      = ⟨[(0, [(saveKey, saveVal), (2, ⟨9, []⟩)])], [], 1⟩ :=
  C4_post_unmap_restores defaultSaveQuery
    { entities := .any, resources := .deny_all, components := .allow_all,
      mapper := ⟨[⟨2, 3, fun v => ⟨v.data + 1, []⟩⟩]⟩ } .Drop
    ⟨true, true, true⟩ [3]
    ⟨[(0, [(saveKey, saveVal), (2, ⟨9, []⟩)])], [], 1⟩ (by decide) (by decide)

-- ---------------------------------------------------------------------------
-- Claim C9: idempotent re-save
-- ---------------------------------------------------------------------------

/-- Claim C9 counterexample: re-running a save with a component mapper on a
world whose selected entity already carried a component of the mapper output
type produces different serialized output the second time — the first save
stripped that component. -/
theorem C9_counterexample :
    letI w : World := ⟨[(0, [(2, ⟨5, []⟩)]), (1, [(2, ⟨6, []⟩)])], [], 2⟩
    letI input : SaveInput :=
      { entities := .any, resources := .deny_all, components := .allow_all,
        mapper := ⟨[⟨7, 2, fun v => v⟩]⟩ }
    (((save_world (fun _ => true) input .Drop ⟨true, true, true⟩ [2]
        ((save_world (fun _ => true) input .Drop ⟨true, true, true⟩ [2] w).2)).1).map
        Saved.scene).toOption
      ≠ (((save_world (fun _ => true) input .Drop ⟨true, true, true⟩ [2] w).1).map
        Saved.scene).toOption := by
  decide

/-- Claim C9 amended: running the save twice without outside mutation of the
world between the runs produces identical serialized output (the scene
handed to the deterministic codec is equal), provided no selected entity
carried a component of a mapper output type before the first save — in that
case the first save leaves the world exactly as it was; otherwise the first
save strips those components and the second output can differ (see the
counterexample). -/
theorem C9_idempotent_resave (qf : Comps → Bool) (input : SaveInput)
    (out : SaveOutputKind) (env : SaveEnv) (reg : Registry) (w : World)
    (hw : w.WF)
    (h : ∀ e ∈ selectEntities qf input.entities w, ∀ r ∈ input.mapper.rules,
        w.lookupComp e r.outKey = none) :
    (save_world qf input out env reg
        ((save_world qf input out env reg w).2)).1
      = (save_world qf input out env reg w).1 := by
  rw [save_world_restores qf input out env reg w hw.1 h]

/-- Claim C9 witness: a concrete mapper-free save run twice produces the
same output. -/
theorem C9_idempotent_resave_witness :
    (save_world defaultSaveQuery SaveInput.default .Stream ⟨true, true, true⟩ [2]
        ((save_world defaultSaveQuery SaveInput.default .Stream ⟨true, true, true⟩ [2]
          ⟨[(0, [(saveKey, saveVal), (2, ⟨9, [0]⟩)])], [], 1⟩).2)).1
      = (save_world defaultSaveQuery SaveInput.default .Stream ⟨true, true, true⟩ [2]
          ⟨[(0, [(saveKey, saveVal), (2, ⟨9, [0]⟩)])], [], 1⟩).1 :=
  C9_idempotent_resave defaultSaveQuery SaveInput.default .Stream ⟨true, true, true⟩ [2]
    ⟨[(0, [(saveKey, saveVal), (2, ⟨9, [0]⟩)])], [], 1⟩ (by decide) (by decide)

-- ---------------------------------------------------------------------------
-- Entity map and scene writing lemmas
-- ---------------------------------------------------------------------------

theorem lookupKey_insertKey_self (cs : Comps) (k : TypeKey) (v : CompVal) :
    lookupKey (insertKey cs k v) k = some v := by
  induction cs with
  | nil => simp [insertKey, lookupKey]
  | cons kv rest ih =>
    by_cases hk : kv.1 = k <;> simp [insertKey, lookupKey, hk, ih]

theorem lookupKey_insertKey_other (cs : Comps) (k k' : TypeKey) (v : CompVal)
    (h : k' ≠ k) : lookupKey (insertKey cs k v) k' = lookupKey cs k' := by
  induction cs with
  | nil => simp [insertKey, lookupKey, Ne.symm h]
  | cons kv rest ih =>
    by_cases hk : kv.1 = k
    · have : k ≠ k' := Ne.symm h
      simp [insertKey, lookupKey, hk, this, Ne.symm h]
    · by_cases hk' : kv.1 = k' <;> simp [insertKey, lookupKey, hk, hk', ih, h]

theorem insertKey_keys (cs : Comps) (k : TypeKey) (v : CompVal) :
    (insertKey cs k v).map Prod.fst
      = if k ∈ cs.map Prod.fst then cs.map Prod.fst
        else cs.map Prod.fst ++ [k] := by
  induction cs with
  | nil => simp [insertKey]
  | cons kv rest ih =>
    by_cases hk : kv.1 = k
    · simp [insertKey, hk]
    · by_cases hm : k ∈ rest.map Prod.fst <;>
        simp [insertKey, hk, hm, ih, Ne.symm hk]

theorem insertKey_keys_nodup (cs : Comps) (k : TypeKey) (v : CompVal)
    (h : (cs.map Prod.fst).Nodup) : ((insertKey cs k v).map Prod.fst).Nodup := by
  rw [insertKey_keys]
  by_cases hm : k ∈ cs.map Prod.fst
  · rwa [if_pos hm]
  · rw [if_neg hm, List.nodup_append]
    refine ⟨h, List.nodup_singleton _, ?_⟩
    intro a ha hb
    simp at hb
    subst hb
    exact hm ha

theorem findComps_append_some (l1 l2 : List (EntityId × Comps)) (e : EntityId)
    (c : Comps) (h : findComps l1 e = some c) :
    findComps (l1 ++ l2) e = some c := by
  induction l1 with
  | nil => simp [findComps] at h
  | cons ec rest ih =>
    by_cases he : ec.1 = e <;> simp_all [findComps]

theorem findComps_append_none (l1 l2 : List (EntityId × Comps)) (e : EntityId)
    (h : findComps l1 e = none) :
    findComps (l1 ++ l2) e = findComps l2 e := by
  induction l1 with
  | nil => rfl
  | cons ec rest ih =>
    by_cases he : ec.1 = e <;> simp_all [findComps]

theorem findComps_none_of (l : List (EntityId × Comps)) (e : EntityId)
    (h : ∀ ec ∈ l, ec.1 ≠ e) : findComps l e = none := by
  induction l with
  | nil => rfl
  | cons ec rest ih =>
    simp only [findComps, h ec (List.mem_cons_self _ _), ite_false]
    exact ih (fun ec' h' => h ec' (List.mem_cons_of_mem _ h'))

theorem spawn_getComps_old (w : World) (e : EntityId) (h : e ≠ w.nextId) :
    (w.spawnEmpty).1.getComps e = w.getComps e := by
  show findComps (w.entities ++ [(w.nextId, [])]) e = findComps w.entities e
  cases hc : findComps w.entities e with
  | some c => exact findComps_append_some _ _ _ _ hc
  | none =>
    rw [findComps_append_none _ _ _ hc]
    simp [findComps, Ne.symm h]

theorem spawn_getComps_new (w : World) (h : ∀ ec ∈ w.entities, ec.1 < w.nextId) :
    (w.spawnEmpty).1.getComps w.nextId = some [] := by
  show findComps (w.entities ++ [(w.nextId, [])]) w.nextId = some []
  rw [findComps_append_none _ _ _
    (findComps_none_of _ _ (fun ec hec => Nat.ne_of_lt (h ec hec)))]
  simp [findComps]

theorem spawn_WF (w : World) (hw : w.WF) : (w.spawnEmpty).1.WF := by
  obtain ⟨h1, h2, h3⟩ := hw
  refine ⟨?_, ?_, ?_⟩
  · show ((w.entities ++ [(w.nextId, [])]).map Prod.fst).Nodup
    rw [List.map_append, List.nodup_append]
    refine ⟨h1, by simp, ?_⟩
    intro a ha hb
    simp at hb
    subst hb
    obtain ⟨ec, hec, heq⟩ := List.mem_map.1 ha
    exact Nat.ne_of_lt (heq ▸ h2 ec hec) rfl
  · intro ec hec
    rcases List.mem_append.1 hec with h | h
    · exact Nat.lt_succ_of_lt (h2 ec h)
    · simp at h
      rw [h]
      exact Nat.lt_succ_self _
  · intro ec hec
    rcases List.mem_append.1 hec with h | h
    · exact h3 ec h
    · simp at h
      simp [h]

theorem lookupE_append_some (em tl : EMap) (x l : EntityId)
    (h : lookupE em x = some l) : lookupE (em ++ tl) x = some l := by
  induction em with
  | nil => simp [lookupE] at h
  | cons p rest ih =>
    by_cases hp : p.1 = x <;> simp_all [lookupE]

theorem lookupE_append_none (em tl : EMap) (x : EntityId)
    (h : lookupE em x = none) : lookupE (em ++ tl) x = lookupE tl x := by
  induction em with
  | nil => rfl
  | cons p rest ih =>
    by_cases hp : p.1 = x <;> simp_all [lookupE]

theorem lookupE_none_iff (em : EMap) (x : EntityId) :
    lookupE em x = none ↔ ∀ p ∈ em, p.1 ≠ x := by
  induction em with
  | nil => simp [lookupE]
  | cons p rest ih =>
    by_cases hp : p.1 = x <;> simp_all [lookupE]

theorem mem_of_lookupE (em : EMap) (x l : EntityId)
    (h : lookupE em x = some l) : (x, l) ∈ em := by
  induction em with
  | nil => simp [lookupE] at h
  | cons p rest ih =>
    by_cases hp : p.1 = x
    · simp only [lookupE, hp, ite_true, Option.some.injEq] at h
      exact List.mem_cons.2 (Or.inl (Prod.ext_iff.2 ⟨hp.symm, h.symm⟩))
    · simp only [lookupE, hp, ite_false] at h
      exact List.mem_cons.2 (Or.inr (ih h))

theorem lookupE_inj (em : EMap) (hv : (em.map Prod.snd).Nodup)
    (a b l : EntityId) (ha : lookupE em a = some l) (hb : lookupE em b = some l) :
    a = b := by
  induction em with
  | nil => simp [lookupE] at ha
  | cons p rest ih =>
    simp only [List.map_cons, List.nodup_cons] at hv
    obtain ⟨hv1, hv2⟩ := hv
    by_cases hpa : p.1 = a <;> by_cases hpb : p.1 = b
    · rw [← hpa, ← hpb]
    · simp only [lookupE] at ha hb
      rw [if_pos hpa] at ha
      rw [if_neg hpb] at hb
      injection ha with ha
      exact absurd (List.mem_map.2 ⟨(b, l), mem_of_lookupE rest b l hb, rfl⟩)
        (ha ▸ hv1)
    · simp only [lookupE] at ha hb
      rw [if_neg hpa] at ha
      rw [if_pos hpb] at hb
      injection hb with hb
      exact absurd (List.mem_map.2 ⟨(a, l), mem_of_lookupE rest a l ha, rfl⟩)
        (hb ▸ hv1)
    · simp only [lookupE] at ha hb
      rw [if_neg hpa] at ha
      rw [if_neg hpb] at hb
      exact ih hv2 ha hb

theorem mem_of_findComps (l : List (EntityId × Comps)) (e : EntityId) (cs : Comps)
    (h : findComps l e = some cs) : (e, cs) ∈ l := by
  induction l with
  | nil => simp [findComps] at h
  | cons ec rest ih =>
    by_cases he : ec.1 = e
    · simp only [findComps, he, ite_true, Option.some.injEq] at h
      exact List.mem_cons.2 (Or.inl (Prod.ext_iff.2 ⟨he.symm, h.symm⟩))
    · simp only [findComps, he, ite_false] at h
      exact List.mem_cons.2 (Or.inr (ih h))

theorem WF_of_updateComps (w : World) (e : EntityId) (f : Comps → Comps)
    (hw : w.WF)
    (hcomps : ∀ cs, w.getComps e = some cs → ((f cs).map Prod.fst).Nodup) :
    (w.updateComps e f).WF := by
  obtain ⟨h1, h2, h3⟩ := hw
  refine ⟨?_, ?_, ?_⟩
  · show ((w.updateComps e f).entities.map Prod.fst).Nodup
    rw [updateComps_keys]
    exact h1
  · intro ec hec
    obtain ⟨ec₀, hec₀, heq⟩ := List.mem_map.1 hec
    by_cases he : ec₀.1 = e
    · rw [if_pos he] at heq
      rw [← heq]
      exact h2 ec₀ hec₀
    · rw [if_neg he] at heq
      rw [← heq]
      exact h2 ec₀ hec₀
  · intro ec hec
    obtain ⟨ec₀, hec₀, heq⟩ := List.mem_map.1 hec
    by_cases he : ec₀.1 = e
    · rw [if_pos he] at heq
      rw [← heq]
      exact hcomps ec₀.2 (he ▸ getComps_of_mem_nodup w ec₀.1 ec₀.2 h1 hec₀)
    · rw [if_neg he] at heq
      rw [← heq]
      exact h3 ec₀ hec₀

theorem insertComp_WF (w : World) (e : EntityId) (k : TypeKey) (v : CompVal)
    (hw : w.WF) : (w.insertComp e k v).WF := by
  refine WF_of_updateComps w e _ hw ?_
  intro cs hcs
  exact insertKey_keys_nodup cs k v
    (hw.2.2 (e, cs) (mem_of_findComps w.entities e cs hcs))

theorem isLive_updateComps (w : World) (e e' : EntityId) (f : Comps → Comps) :
    (w.updateComps e f).isLive e' = w.isLive e' := by
  unfold World.isLive
  rw [getComps_updateComps]
  by_cases he : e' = e <;> simp [he]

theorem lookupComp_insertComp_self (w : World) (e : EntityId) (k : TypeKey)
    (v : CompVal) (cs : Comps) (h : w.getComps e = some cs) :
    (w.insertComp e k v).lookupComp e k = some v := by
  unfold World.lookupComp World.insertComp
  rw [getComps_updateComps]
  simp [h, lookupKey_insertKey_self]

theorem lookupComp_insertComp_otherEntity (w : World) (e e' : EntityId)
    (k k' : TypeKey) (v : CompVal) (h : e' ≠ e) :
    (w.insertComp e k v).lookupComp e' k' = w.lookupComp e' k' := by
  unfold World.lookupComp World.insertComp
  rw [getComps_updateComps, if_neg h]

theorem lookupComp_insertComp_otherKey (w : World) (e e' : EntityId)
    (k k' : TypeKey) (v : CompVal) (h : k' ≠ k) :
    (w.insertComp e k v).lookupComp e' k' = w.lookupComp e' k' := by
  unfold World.lookupComp World.insertComp
  rw [getComps_updateComps]
  by_cases he : e' = e
  · rw [if_pos he]
    cases hc : w.getComps e' with
    | none => rfl
    | some cs => simp [lookupKey_insertKey_other cs k k' v h]
  · rw [if_neg he]

/-- Invariant carried through scene writing: a well-formed world, no
duplicate saved-space keys or live-space values in the entity map, and every
mapped value below the allocator cursor. -/
def EMInv (st : World × EMap) : Prop :=
  st.1.WF ∧ (st.2.map Prod.fst).Nodup ∧ (st.2.map Prod.snd).Nodup ∧
  ∀ p ∈ st.2, p.2 < st.1.nextId

theorem allocSceneEntities_spec :
    ∀ (sc : List (EntityId × Comps)) (w : World) (em : EMap),
      w.WF → (em.map Prod.fst).Nodup → (em.map Prod.snd).Nodup →
      (∀ p ∈ em, p.2 < w.nextId) →
      ((sc.map Prod.fst).Nodup) →
      (∀ p ∈ sc, lookupE em p.1 = none) →
      (∀ p ∈ sc, ∃ lid, lookupE (allocSceneEntities sc w em).2 p.1 = some lid
        ∧ (allocSceneEntities sc w em).1.getComps lid = some [])
      ∧ (∀ x l, lookupE em x = some l
          → lookupE (allocSceneEntities sc w em).2 x = some l)
      ∧ EMInv (allocSceneEntities sc w em)
      ∧ w.nextId ≤ (allocSceneEntities sc w em).1.nextId
      ∧ (∀ e c, w.getComps e = some c
          → (allocSceneEntities sc w em).1.getComps e = some c) := by
  intro sc
  induction sc with
  | nil =>
    intro w em hw hek hev hbound _ _
    exact ⟨by simp, fun x l h => h, ⟨hw, hek, hev, hbound⟩, Nat.le_refl _,
      fun e c h => h⟩
  | cons p rest ih =>
    intro w em hw hek hev hbound hnd hnew
    obtain ⟨sid, cs₀⟩ := p
    have hnone : lookupE em sid = none := hnew (sid, cs₀) (List.mem_cons_self _ _)
    have hstep : allocSceneEntities ((sid, cs₀) :: rest) w em
        = allocSceneEntities rest (w.spawnEmpty).1 (em ++ [(sid, w.nextId)]) := by
      show (match lookupE em sid with
        | some _ => allocSceneEntities rest w em
        | none => allocSceneEntities rest (w.spawnEmpty).1
            (em ++ [(sid, (w.spawnEmpty).2)])) = _
      rw [hnone]
      rfl
    rw [hstep]
    have hsidk : ∀ q ∈ em, q.1 ≠ sid := (lookupE_none_iff em sid).1 hnone
    have hek' : ((em ++ [(sid, w.nextId)]).map Prod.fst).Nodup := by
      rw [List.map_append, List.nodup_append]
      refine ⟨hek, by simp, ?_⟩
      intro a ha hb
      simp at hb
      subst hb
      obtain ⟨q, hq, heq⟩ := List.mem_map.1 ha
      exact hsidk q hq heq
    have hev' : ((em ++ [(sid, w.nextId)]).map Prod.snd).Nodup := by
      rw [List.map_append, List.nodup_append]
      refine ⟨hev, by simp, ?_⟩
      intro a ha hb
      simp at hb
      subst hb
      obtain ⟨q, hq, heq⟩ := List.mem_map.1 ha
      exact Nat.ne_of_lt (heq ▸ hbound q hq) rfl
    have hbound' : ∀ q ∈ em ++ [(sid, w.nextId)], q.2 < (w.spawnEmpty).1.nextId := by
      intro q hq
      rcases List.mem_append.1 hq with h | h
      · exact Nat.lt_succ_of_lt (hbound q h)
      · simp at h
        rw [h]
        exact Nat.lt_succ_self _
    have hnd' : (rest.map Prod.fst).Nodup := (List.nodup_cons.1 (by simpa using hnd)).2
    have hsid_not : sid ∉ rest.map Prod.fst := (List.nodup_cons.1 (by simpa using hnd)).1
    have hnew' : ∀ q ∈ rest, lookupE (em ++ [(sid, w.nextId)]) q.1 = none := by
      intro q hq
      rw [lookupE_append_none em _ _ (hnew q (List.mem_cons_of_mem _ hq))]
      have : q.1 ≠ sid := by
        intro hc
        exact hsid_not (hc ▸ List.mem_map.2 ⟨q, hq, rfl⟩)
      simp [lookupE, Ne.symm this]
    obtain ⟨ia, ib, ic, id_, ie_⟩ := ih (w.spawnEmpty).1 (em ++ [(sid, w.nextId)])
      (spawn_WF w hw) hek' hev' hbound' hnd' hnew'
    refine ⟨?_, ?_, ic, Nat.le_trans (Nat.le_succ _) id_, ?_⟩
    · intro q hq
      rcases List.mem_cons.1 hq with h | h
      · subst h
        refine ⟨w.nextId, ?_, ?_⟩
        · apply ib
          rw [lookupE_append_none em _ _ hnone]
          simp [lookupE]
        · exact ie_ w.nextId [] (spawn_getComps_new w hw.2.1)
      · exact ia q h
    · intro x l h
      exact ib x l (lookupE_append_some em _ x l h)
    · intro e c h
      exact ie_ e c (findComps_append_some _ _ _ _ h)

-- mapRef facts ----------------------------------------------------------------

theorem mapRef_entities (st : World × EMap) (r : EntityId) :
    ((mapRef st r).1).1.entities = st.1.entities := by
  unfold mapRef
  cases h : lookupE st.2 r <;> rfl

theorem mapRef_nextId (st : World × EMap) (r : EntityId) :
    st.1.nextId ≤ ((mapRef st r).1).1.nextId := by
  unfold mapRef
  cases h : lookupE st.2 r with
  | some l => exact Nat.le_refl _
  | none => exact Nat.le_succ _

theorem mapRef_stable (st : World × EMap) (r x l : EntityId)
    (h : lookupE st.2 x = some l) : lookupE ((mapRef st r).1).2 x = some l := by
  unfold mapRef
  cases hr : lookupE st.2 r with
  | some l' => exact h
  | none => exact lookupE_append_some _ _ _ _ h

theorem mapRef_val (st : World × EMap) (r l : EntityId)
    (h : lookupE st.2 r = some l) : (mapRef st r).2 = l := by
  unfold mapRef
  rw [h]

theorem mapRef_inv (st : World × EMap) (r : EntityId) (hi : EMInv st) :
    EMInv (mapRef st r).1 := by
  obtain ⟨hw, hek, hev, hbound⟩ := hi
  unfold mapRef
  cases hr : lookupE st.2 r with
  | some l => exact ⟨hw, hek, hev, hbound⟩
  | none =>
    refine ⟨⟨hw.1, fun ec hec => Nat.lt_succ_of_lt (hw.2.1 ec hec), hw.2.2⟩, ?_, ?_, ?_⟩
    · rw [List.map_append, List.nodup_append]
      refine ⟨hek, by simp, ?_⟩
      intro a ha hb
      simp at hb
      obtain ⟨q, hq, heq⟩ := List.mem_map.1 ha
      exact (lookupE_none_iff st.2 r).1 hr q hq (heq.trans hb)
    · rw [List.map_append, List.nodup_append]
      refine ⟨hev, by simp, ?_⟩
      intro a ha hb
      simp at hb
      obtain ⟨q, hq, heq⟩ := List.mem_map.1 ha
      exact Nat.ne_of_lt (hbound q hq) (heq.trans hb)
    · intro q hq
      rcases List.mem_append.1 hq with h | h
      · exact Nat.lt_succ_of_lt (hbound q h)
      · simp at h
        rw [h]
        exact Nat.lt_succ_self _

theorem mapRefs_spec :
    ∀ (rs : List EntityId) (st : World × EMap), EMInv st →
      EMInv (mapRefs st rs).1
      ∧ ((mapRefs st rs).1.1.entities = st.1.entities)
      ∧ (st.1.nextId ≤ (mapRefs st rs).1.1.nextId)
      ∧ (∀ x l, lookupE st.2 x = some l → lookupE (mapRefs st rs).1.2 x = some l)
      ∧ List.Forall₂ (fun r r' => ∀ l, lookupE st.2 r = some l → r' = l)
          rs (mapRefs st rs).2 := by
  intro rs
  induction rs with
  | nil =>
    intro st hi
    exact ⟨hi, rfl, Nat.le_refl _, fun x l h => h, List.Forall₂.nil⟩
  | cons r rest ih =>
    intro st hi
    obtain ⟨ia, ib, ic, id_, ie_⟩ := ih (mapRef st r).1 (mapRef_inv st r hi)
    have hent : (mapRefs st (r :: rest)).1.1.entities = st.1.entities := by
      show (mapRefs (mapRef st r).1 rest).1.1.entities = st.1.entities
      rw [ib, mapRef_entities]
    refine ⟨ia, hent, Nat.le_trans (mapRef_nextId st r) ic, ?_, ?_⟩
    · intro x l h
      exact id_ x l (mapRef_stable st r x l h)
    · show List.Forall₂ _ (r :: rest) ((mapRef st r).2 :: (mapRefs (mapRef st r).1 rest).2)
      refine List.Forall₂.cons ?_ ?_
      · intro l h
        exact mapRef_val st r l h
      · refine ie_.imp ?_
        intro a b hab l h
        exact hab l (mapRef_stable st r a l h)

theorem getComps_congr_entities (w w' : World) (h : w'.entities = w.entities)
    (e : EntityId) : w'.getComps e = w.getComps e := by
  unfold World.getComps
  rw [h]

theorem writeEntityComps_spec :
    ∀ (cs : Comps) (lid : EntityId) (st : World × EMap) (acc : Comps),
      EMInv st →
      st.1.getComps lid = some acc →
      ((cs.map Prod.fst).Nodup) →
      (∀ kv ∈ cs, lookupKey acc kv.1 = none) →
      EMInv (writeEntityComps lid cs st)
      ∧ (writeEntityComps lid cs st).1.entities.map Prod.fst
          = st.1.entities.map Prod.fst
      ∧ st.1.nextId ≤ (writeEntityComps lid cs st).1.nextId
      ∧ (∀ x l, lookupE st.2 x = some l
          → lookupE (writeEntityComps lid cs st).2 x = some l)
      ∧ (∀ e, e ≠ lid
          → (writeEntityComps lid cs st).1.getComps e = st.1.getComps e)
      ∧ (∀ k v, lookupKey cs k = some v →
          ∃ v', (writeEntityComps lid cs st).1.lookupComp lid k = some v'
            ∧ v'.data = v.data
            ∧ List.Forall₂ (fun r r' => ∀ l, lookupE st.2 r = some l → r' = l)
                v.refs v'.refs)
      ∧ (∀ k, (∀ kv ∈ cs, kv.1 ≠ k)
          → (writeEntityComps lid cs st).1.lookupComp lid k = lookupKey acc k) := by
  intro cs
  induction cs with
  | nil =>
    intro lid st acc hi hacc _ _
    refine ⟨hi, rfl, Nat.le_refl _, fun x l h => h, fun e _ => rfl,
      fun k v h => by simp [lookupKey] at h, fun k _ => ?_⟩
    show (match st.1.getComps lid with
      | some cs => lookupKey cs k
      | none => none) = lookupKey acc k
    rw [hacc]
  | cons kv₀ rest ih =>
    intro lid st acc hi hacc hnd hnone
    obtain ⟨k₀, v₀⟩ := kv₀
    obtain ⟨mi, ment, mnext, mstab, mrel⟩ := mapRefs_spec v₀.refs st hi
    have hccM : (mapRefs st v₀.refs).1.1.getComps lid = some acc := by
      rw [getComps_congr_entities st.1 _ ment]
      exact hacc
    have hstep : writeEntityComps lid ((k₀, v₀) :: rest) st
        = writeEntityComps lid rest
            (((mapRefs st v₀.refs).1.1.insertComp lid k₀ ⟨v₀.data, (mapRefs st v₀.refs).2⟩,
              (mapRefs st v₀.refs).1.2)) := rfl
    set m := mapRefs st v₀.refs with hm
    set wI := m.1.1.insertComp lid k₀ ⟨v₀.data, m.2⟩ with hwI
    have haccI : wI.getComps lid = some (insertKey acc k₀ ⟨v₀.data, m.2⟩) := by
      show (m.1.1.updateComps lid _).getComps lid = _
      rw [getComps_updateComps, if_pos rfl, hccM]
      rfl
    have hiI : EMInv (wI, m.1.2) := by
      refine ⟨insertComp_WF _ _ _ _ mi.1, mi.2.1, mi.2.2.1, ?_⟩
      intro p hp
      exact mi.2.2.2 p hp
    have hnd' : (rest.map Prod.fst).Nodup := (List.nodup_cons.1 (by simpa using hnd)).2
    have hk₀not : k₀ ∉ rest.map Prod.fst := (List.nodup_cons.1 (by simpa using hnd)).1
    have hnone' : ∀ kv ∈ rest, lookupKey (insertKey acc k₀ ⟨v₀.data, m.2⟩) kv.1 = none := by
      intro kv hkv
      have hne : kv.1 ≠ k₀ := by
        intro hc
        exact hk₀not (hc ▸ List.mem_map.2 ⟨kv, hkv, rfl⟩)
      rw [lookupKey_insertKey_other acc k₀ kv.1 _ hne]
      exact hnone kv (List.mem_cons_of_mem _ hkv)
    obtain ⟨ja, jb, jc, jd, je, jf, jg⟩ :=
      ih lid (wI, m.1.2) (insertKey acc k₀ ⟨v₀.data, m.2⟩) hiI haccI hnd' hnone'
    rw [hstep]
    have hkeysI : wI.entities.map Prod.fst = st.1.entities.map Prod.fst := by
      show (m.1.1.updateComps lid _).entities.map Prod.fst = _
      rw [updateComps_keys, ment]
    refine ⟨ja, by rw [jb]; exact hkeysI, ?_, ?_, ?_, ?_, ?_⟩
    · exact Nat.le_trans mnext jc
    · intro x l h
      exact jd x l (mstab x l h)
    · intro e he
      rw [je e he]
      show (m.1.1.updateComps lid _).getComps e = _
      rw [getComps_updateComps, if_neg he]
      exact getComps_congr_entities st.1 _ ment e
    · intro k v h
      by_cases hk : k = k₀
      · subst hk
        have hv : v = v₀ := by
          simp [lookupKey] at h
          exact h.symm
        have hres := jg k (fun kv hkv => fun hc => hk₀not (hc ▸ List.mem_map.2 ⟨kv, hkv, rfl⟩))
        rw [lookupKey_insertKey_self] at hres
        refine ⟨⟨v₀.data, m.2⟩, hres, ?_, ?_⟩
        · rw [hv]
        · rw [hv]
          exact mrel
      · have hrest : lookupKey rest k = some v := by
          simpa [lookupKey, Ne.symm (Ne.intro hk)] using h
        obtain ⟨v', hv'1, hv'2, hv'3⟩ := jf k v hrest
        refine ⟨v', hv'1, hv'2, hv'3.imp ?_⟩
        intro a b hab l hl
        exact hab l (mstab a l hl)
    · intro k hk
      have hne : k₀ ≠ k := hk (k₀, v₀) (List.mem_cons_self _ _)
      rw [jg k (fun kv hkv => hk kv (List.mem_cons_of_mem _ hkv)),
        lookupKey_insertKey_other acc k₀ k _ (Ne.symm hne)]

theorem lookupComp_eq_of_getComps (w w' : World) (e : EntityId)
    (h : w.getComps e = w'.getComps e) (k : TypeKey) :
    w.lookupComp e k = w'.lookupComp e k := by
  unfold World.lookupComp
  rw [h]

theorem writeSceneEntities_spec :
    ∀ (sc : List (EntityId × Comps)) (st : World × EMap),
      EMInv st →
      ((sc.map Prod.fst).Nodup) →
      (∀ p ∈ sc, (p.2.map Prod.fst).Nodup) →
      (∀ p ∈ sc, ∃ lid, lookupE st.2 p.1 = some lid ∧ st.1.getComps lid = some []) →
      EMInv (writeSceneEntities sc st)
      ∧ (writeSceneEntities sc st).1.entities.map Prod.fst
          = st.1.entities.map Prod.fst
      ∧ (∀ x l, lookupE st.2 x = some l
          → lookupE (writeSceneEntities sc st).2 x = some l)
      ∧ (∀ e, (∀ p ∈ sc, ∀ l, lookupE st.2 p.1 = some l → l ≠ e)
          → (writeSceneEntities sc st).1.getComps e = st.1.getComps e)
      ∧ (∀ p ∈ sc, ∀ lid, lookupE st.2 p.1 = some lid →
          ∀ k v, lookupKey p.2 k = some v →
            ∃ v', (writeSceneEntities sc st).1.lookupComp lid k = some v'
              ∧ v'.data = v.data
              ∧ List.Forall₂ (fun r r' => ∀ l, lookupE st.2 r = some l → r' = l)
                  v.refs v'.refs) := by
  intro sc
  induction sc with
  | nil =>
    intro st hi _ _ _
    exact ⟨hi, rfl, fun x l h => h, fun e _ => rfl, by simp⟩
  | cons p₀ rest ih =>
    intro st hi hnd hcnd hloc
    obtain ⟨sid₀, cs₀⟩ := p₀
    obtain ⟨lid₀, hlid₀, hcomp₀⟩ := hloc (sid₀, cs₀) (List.mem_cons_self _ _)
    have hgd : (lookupE st.2 sid₀).getD 0 = lid₀ := by rw [hlid₀]; rfl
    have hstep : writeSceneEntities ((sid₀, cs₀) :: rest) st
        = writeSceneEntities rest (writeEntityComps lid₀ cs₀ st) := by
      show writeSceneEntities rest (writeEntityComps ((lookupE st.2 sid₀).getD 0) cs₀ st) = _
      rw [hgd]
    rw [hstep]
    obtain ⟨wa, wb, _wc, wd, we, wf, _wg⟩ :=
      writeEntityComps_spec cs₀ lid₀ st [] hi hcomp₀
        (hcnd (sid₀, cs₀) (List.mem_cons_self _ _)) (fun kv _ => rfl)
    have hsid₀not : sid₀ ∉ rest.map Prod.fst :=
      (List.nodup_cons.1 (by simpa using hnd)).1
    have hne_sid : ∀ p ∈ rest, p.1 ≠ sid₀ := by
      intro p hp hc
      exact hsid₀not (hc ▸ List.mem_map.2 ⟨p, hp, rfl⟩)
    have hlid_ne : ∀ p ∈ rest, ∀ l, lookupE st.2 p.1 = some l → l ≠ lid₀ := by
      intro p hp l hl hc
      exact hne_sid p hp (lookupE_inj st.2 hi.2.2.1 p.1 sid₀ lid₀ (hc ▸ hl) hlid₀)
    have hloc' : ∀ p ∈ rest, ∃ lid, lookupE (writeEntityComps lid₀ cs₀ st).2 p.1 = some lid
        ∧ (writeEntityComps lid₀ cs₀ st).1.getComps lid = some [] := by
      intro p hp
      obtain ⟨lp, hlp, hcp⟩ := hloc p (List.mem_cons_of_mem _ hp)
      refine ⟨lp, wd p.1 lp hlp, ?_⟩
      rw [we lp (hlid_ne p hp lp hlp)]
      exact hcp
    obtain ⟨ka, kb, kc, kd, ke⟩ := ih (writeEntityComps lid₀ cs₀ st) wa
      ((List.nodup_cons.1 (by simpa using hnd)).2)
      (fun p hp => hcnd p (List.mem_cons_of_mem _ hp)) hloc'
    refine ⟨ka, kb.trans wb, ?_, ?_, ?_⟩
    · intro x l h
      exact kc x l (wd x l h)
    · intro e he
      have h1 : (writeSceneEntities rest (writeEntityComps lid₀ cs₀ st)).1.getComps e
          = (writeEntityComps lid₀ cs₀ st).1.getComps e := by
        apply kd
        intro p hp l hl hc
        obtain ⟨lp, hlp, _⟩ := hloc p (List.mem_cons_of_mem _ hp)
        have hwd := wd p.1 lp hlp
        have hll : l = lp := Option.some.inj (hl.symm.trans hwd)
        exact he p (List.mem_cons_of_mem _ hp) lp hlp (hll ▸ hc)
      rw [h1]
      apply we
      intro hc
      exact he (sid₀, cs₀) (List.mem_cons_self _ _) lid₀ hlid₀ hc.symm
    · intro p hp lid hlid k v hkv
      rcases List.mem_cons.1 hp with hp | hp
      · -- the head scene entity
        have hlid' : lookupE st.2 sid₀ = some lid := by
          rw [hp] at hlid
          exact hlid
        have hplid : lid = lid₀ := Option.some.inj (hlid'.symm.trans hlid₀)
        rw [hplid]
        have hkv₀ : lookupKey cs₀ k = some v := by
          rw [hp] at hkv
          exact hkv
        obtain ⟨v', hv'1, hv'2, hv'3⟩ := wf k v hkv₀
        have hframe : (writeSceneEntities rest (writeEntityComps lid₀ cs₀ st)).1.getComps lid₀
            = (writeEntityComps lid₀ cs₀ st).1.getComps lid₀ := by
          apply kd
          intro q hq l hl hc
          obtain ⟨lq, hlq, _⟩ := hloc q (List.mem_cons_of_mem _ hq)
          have hwd := wd q.1 lq hlq
          have hll : l = lq := Option.some.inj (hl.symm.trans hwd)
          exact hlid_ne q hq lq hlq (hll ▸ hc)
        rw [lookupComp_eq_of_getComps _ _ lid₀ hframe k]
        exact ⟨v', hv'1, hv'2, hv'3⟩
      · obtain ⟨v', hv'1, hv'2, hv'3⟩ := ke p hp lid (wd p.1 lid hlid) k v hkv
        refine ⟨v', hv'1, hv'2, hv'3.imp ?_⟩
        intro a b hab l hl
        exact hab l (wd a l hl)

-- Unload, post-load mapper, and marker insertion stages -----------------------

theorem despawn_WF (w : World) (e : EntityId) (hw : w.WF) : (w.despawn e).WF := by
  obtain ⟨h1, h2, h3⟩ := hw
  refine ⟨?_, ?_, ?_⟩
  · show ((w.entities.filter _).map Prod.fst).Nodup
    exact ((List.filter_sublist _).map Prod.fst).nodup h1
  · intro ec hec
    exact h2 ec (List.mem_of_mem_filter hec)
  · intro ec hec
    exact h3 ec (List.mem_of_mem_filter hec)

theorem despawn_fold_WF :
    ∀ (es : List EntityId) (w : World), w.WF →
      (es.foldl (fun acc e => acc.despawn e) w).WF := by
  intro es
  induction es with
  | nil => exact fun w hw => hw
  | cons e rest ih => exact fun w hw => ih (w.despawn e) (despawn_WF w e hw)

theorem despawn_fold_nextId :
    ∀ (es : List EntityId) (w : World),
      (es.foldl (fun acc e => acc.despawn e) w).nextId = w.nextId := by
  intro es
  induction es with
  | nil => exact fun w => rfl
  | cons e rest ih => exact fun w => ih (w.despawn e)

theorem isLive_insertComp (w : World) (e e' : EntityId) (k : TypeKey) (v : CompVal) :
    (w.insertComp e k v).isLive e' = w.isLive e' :=
  isLive_updateComps w e e' _

theorem isLive_iff_mem_keys (w : World) (e : EntityId) :
    w.isLive e = true ↔ e ∈ w.entities.map Prod.fst := by
  show (findComps w.entities e).isSome = true ↔ _
  induction w.entities with
  | nil => simp [findComps]
  | cons ec rest ih =>
    by_cases he : ec.1 = e
    · simp [findComps, he]
    · simp only [findComps, he, ite_false, List.map_cons, List.mem_cons]
      rw [ih]
      constructor
      · exact fun h => Or.inr h
      · intro h
        rcases h with h | h
        · exact absurd h.symm he
        · exact h

theorem isLive_congr_keys (w w' : World)
    (h : w'.entities.map Prod.fst = w.entities.map Prod.fst) (e : EntityId) :
    w'.isLive e = w.isLive e := by
  by_cases hl : w.isLive e = true
  · rw [hl]
    rw [isLive_iff_mem_keys, h]
    exact (isLive_iff_mem_keys w e).1 hl
  · have h1 : w.isLive e = false := by
      cases hv : w.isLive e
      · rfl
      · exact absurd hv hl
    rw [h1]
    cases hv : w'.isLive e
    · rfl
    · exact absurd ((h ▸ (isLive_iff_mem_keys w' e).1 hv : e ∈ w.entities.map Prod.fst))
        (fun hm => hl ((isLive_iff_mem_keys w e).2 hm))

theorem replaceRule_keys (r : MapRule) (w : World) (e : EntityId) :
    (replaceRule r w e).entities.map Prod.fst = w.entities.map Prod.fst := by
  unfold replaceRule
  cases h : w.lookupComp e r.inKey with
  | none => rfl
  | some v =>
    show ((w.updateComps e _).updateComps e _).entities.map Prod.fst = _
    rw [updateComps_keys, updateComps_keys]

theorem replace_keys (sm : SceneMapper) :
    ∀ (w : World) (e : EntityId),
      (sm.replace w e).entities.map Prod.fst = w.entities.map Prod.fst := by
  rcases sm with ⟨rules⟩
  induction rules with
  | nil => exact fun w e => rfl
  | cons r rs ih =>
    intro w e
    have h1 : SceneMapper.replace ⟨r :: rs⟩ w e
        = SceneMapper.replace ⟨rs⟩ (replaceRule r w e) e := rfl
    rw [h1, ih (replaceRule r w e) e, replaceRule_keys]

theorem replace_fold_keys (sm : SceneMapper) :
    ∀ (em : EMap) (w : World),
      ((em.foldl (fun acc p => if acc.isLive p.2 then sm.replace acc p.2 else acc) w).entities.map Prod.fst)
        = w.entities.map Prod.fst := by
  intro em
  induction em with
  | nil => exact fun w => rfl
  | cons q rest ih =>
    intro w
    rw [List.foldl_cons, ih]
    by_cases h : w.isLive q.2 = true
    · rw [if_pos h, replace_keys]
    · rw [if_neg h]

theorem isLive_getComps_some (w : World) (e : EntityId) (h : w.isLive e = true) :
    ∃ cs, w.getComps e = some cs := by
  unfold World.isLive at h
  cases hc : w.getComps e with
  | none => rw [hc] at h; simp at h
  | some cs => exact ⟨cs, rfl⟩

theorem insert_fold_spec (bk : TypeKey) (bv : CompVal) :
    ∀ (em : EMap) (w : World),
      (∀ e k, k ≠ bk →
        (em.foldl (fun acc p => if acc.isLive p.2 then acc.insertComp p.2 bk bv else acc) w).lookupComp e k
          = w.lookupComp e k)
      ∧ (∀ e,
        (em.foldl (fun acc p => if acc.isLive p.2 then acc.insertComp p.2 bk bv else acc) w).isLive e
          = w.isLive e)
      ∧ (∀ e, w.lookupComp e bk = some bv →
        (em.foldl (fun acc p => if acc.isLive p.2 then acc.insertComp p.2 bk bv else acc) w).lookupComp e bk
          = some bv)
      ∧ (∀ p ∈ em, w.isLive p.2 = true →
        (em.foldl (fun acc p => if acc.isLive p.2 then acc.insertComp p.2 bk bv else acc) w).lookupComp p.2 bk
          = some bv) := by
  intro em
  induction em with
  | nil =>
    intro w
    exact ⟨fun e k _ => rfl, fun e => rfl, fun e h => h, by simp⟩
  | cons q rest ih =>
    intro w
    by_cases hlq : w.isLive q.2 = true
    · have hstep : (q :: rest).foldl
          (fun acc p => if acc.isLive p.2 then acc.insertComp p.2 bk bv else acc) w
          = rest.foldl (fun acc p => if acc.isLive p.2 then acc.insertComp p.2 bk bv else acc)
              (w.insertComp q.2 bk bv) := by
        rw [List.foldl_cons, if_pos hlq]
      obtain ⟨cs, hcs⟩ := isLive_getComps_some w q.2 hlq
      obtain ⟨ia, ib, ic, id_⟩ := ih (w.insertComp q.2 bk bv)
      rw [hstep]
      refine ⟨?_, ?_, ?_, ?_⟩
      · intro e k hk
        rw [ia e k hk, lookupComp_insertComp_otherKey w q.2 e bk k bv hk]
      · intro e
        rw [ib e]
        exact isLive_insertComp w q.2 e bk bv
      · intro e h
        apply ic
        by_cases he : e = q.2
        · rw [he]
          exact lookupComp_insertComp_self w q.2 bk bv cs hcs
        · rw [lookupComp_insertComp_otherEntity w q.2 e bk bk bv he]
          exact h
      · intro p hp hlive
        rcases List.mem_cons.1 hp with hp | hp
        · apply ic
          rw [hp]
          exact lookupComp_insertComp_self w q.2 bk bv cs hcs
        · apply id_ p hp
          rw [isLive_insertComp]
          exact hlive
    · have hstep : (q :: rest).foldl
          (fun acc p => if acc.isLive p.2 then acc.insertComp p.2 bk bv else acc) w
          = rest.foldl (fun acc p => if acc.isLive p.2 then acc.insertComp p.2 bk bv else acc) w := by
        rw [List.foldl_cons, if_neg hlq]
      obtain ⟨ia, ib, ic, id_⟩ := ih w
      rw [hstep]
      refine ⟨ia, ib, ic, ?_⟩
      intro p hp hlive
      rcases List.mem_cons.1 hp with hp | hp
      · exact absurd (hp ▸ hlive) hlq
      · exact id_ p hp hlive

theorem write_to_world_ok (saved : Saved) (reg : Registry) (w w0 : World)
    (hreg : sceneRegistered reg saved.scene = true)
    (hw0 : w0 = { w with resources := saved.scene.resources.foldl (fun rs kv => insertKey rs kv.1 kv.2) w.resources }) :
    write_to_world (.ok saved) reg w
      = (.ok ⟨(writeSceneEntities saved.scene.entities
            (allocSceneEntities saved.scene.entities w0 [])).2⟩,
         if saved.mapper.isEmpty
         then (writeSceneEntities saved.scene.entities
            (allocSceneEntities saved.scene.entities w0 [])).1
         else (writeSceneEntities saved.scene.entities
            (allocSceneEntities saved.scene.entities w0 [])).2.foldl
            (fun acc p => if acc.isLive p.2 then saved.mapper.replace acc p.2 else acc)
            (writeSceneEntities saved.scene.entities
              (allocSceneEntities saved.scene.entities w0 [])).1) := by
  rw [hw0]
  show (if !(sceneRegistered reg saved.scene) then _ else _) = _
  rw [hreg]
  rfl

theorem lookupComp_some_getComps (w : World) (e : EntityId) (k : TypeKey)
    (v : CompVal) (h : w.lookupComp e k = some v) :
    ∃ cs, w.getComps e = some cs ∧ lookupKey cs k = some v := by
  unfold World.lookupComp at h
  cases hc : w.getComps e with
  | none => rw [hc] at h; exact absurd h (by simp)
  | some cs =>
    rw [hc] at h
    exact ⟨cs, rfl, h⟩

/-- Closed form of a successful run of the `load` pipeline: the read
succeeded, the scene decoded, every scene type is registered.  The result is
the `Loaded` resource holding the entity map and a single `OnLoaded`
event. -/
theorem load_pipeline_ok_eq (env : LoadEnv) (data : Scene) (mapper : SceneMapper)
    (reg : Registry) (w wU w0 w2 w3 : World) (em2 : EMap)
    (h1 : env.ioOk = true) (h2 : env.parseOk = true) (h3 : env.decodeOk = true)
    (hreg : sceneRegistered reg data = true)
    (hwU : wU = ((w.entities.filter (fun ec => defaultUnloadFilter ec.2)).map (fun ec => ec.1)).foldl (fun acc e => acc.despawn e) w)
    (hw0 : w0 = { wU with resources := data.resources.foldl (fun rs kv => insertKey rs kv.1 kv.2) wU.resources })
    (hem2 : em2 = (writeSceneEntities data.entities (allocSceneEntities data.entities w0 [])).2)
    (hw2 : w2 = (writeSceneEntities data.entities (allocSceneEntities data.entities w0 [])).1)
    (hw3 : w3 = (if mapper.isEmpty then w2 else em2.foldl (fun acc p => if acc.isLive p.2 then mapper.replace acc p.2 else acc) w2)) :
    load_pipeline env data mapper reg w
      = (em2.foldl (fun acc p => if acc.isLive p.2 then acc.insertComp p.2 saveKey saveVal else acc) w3,
         some ⟨em2⟩, [LoadEvt.OnLoaded]) := by
  subst hwU hw0 hem2 hw2 hw3
  have hread : readSource env data mapper = .ok ⟨data, mapper⟩ := by
    simp [readSource, h1, h2, h3]
  simp only [load_pipeline, hread, unload]
  rw [write_to_world_ok ⟨data, mapper⟩ reg _ _ hreg rfl]
  rfl

-- ---------------------------------------------------------------------------
-- Claim C10: loaded entities become save-managed
-- ---------------------------------------------------------------------------

/-- Claim C10 counterexample: a load whose saved data contains a dangling
reference (entity 10 references 99, which was never saved) records a
placeholder for 99 in the resulting `EntityMap`, but that placeholder is not
a live entity and never receives the `Save` marker — so not every entity
recorded in the `EntityMap` is save-managed. -/
theorem C10_counterexample :
    ∃ loaded,
      (load_pipeline ⟨true, true, true⟩ ⟨[(10, [(2, ⟨0, [99]⟩)])], []⟩ ⟨[]⟩ [2]
          ⟨[], [], 0⟩).2.1 = some loaded
      ∧ lookupE loaded.entity_map 99 = some 1
      ∧ (load_pipeline ⟨true, true, true⟩ ⟨[(10, [(2, ⟨0, [99]⟩)])], []⟩ ⟨[]⟩ [2]
          ⟨[], [], 0⟩).1.lookupComp 1 saveKey = none
      ∧ (load_pipeline ⟨true, true, true⟩ ⟨[(10, [(2, ⟨0, [99]⟩)])], []⟩ ⟨[]⟩ [2]
          ⟨[], [], 0⟩).1.isLive 1 = false := by
  refine ⟨⟨[(10, 0), (99, 1)]⟩, ?_, ?_, ?_, ?_⟩ <;> decide

/-- Claim C10 amended: in every load invocation that finishes successfully,
every entity instantiated from the snapshot (every scene entity, through its
`EntityMap` image) receives the `Save` marker component before the `Loaded`
result is emitted, and therefore matches the default save filter
(`With<Save>`) and the default unload filter; `EntityMap` entries created as
placeholders for dangling references are not live entities and are skipped
by the marker insertion. -/
theorem C10_loaded_entities_save_marked (env : LoadEnv) (data : Scene)
    (mapper : SceneMapper) (reg : Registry) (w : World)
    (h1 : env.ioOk = true) (h2 : env.parseOk = true) (h3 : env.decodeOk = true)
    (hw : w.WF)
    (hreg : sceneRegistered reg data = true)
    (hnd : (data.entities.map Prod.fst).Nodup)
    (hcnd : ∀ p ∈ data.entities, (p.2.map Prod.fst).Nodup) :
    ∃ loaded, (load_pipeline env data mapper reg w).2.1 = some loaded
      ∧ (load_pipeline env data mapper reg w).2.2 = [LoadEvt.OnLoaded]
      ∧ ∀ p ∈ data.entities,
          ∃ l, lookupE loaded.entity_map p.1 = some l
            ∧ (load_pipeline env data mapper reg w).1.lookupComp l saveKey = some saveVal
            ∧ ∃ cs, (load_pipeline env data mapper reg w).1.getComps l = some cs
                ∧ defaultSaveQuery cs = true ∧ defaultUnloadFilter cs = true := by
  have hlp := load_pipeline_ok_eq env data mapper reg w _ _ _ _ _ h1 h2 h3 hreg
    rfl rfl rfl rfl rfl
  have hWU : (((w.entities.filter (fun ec => defaultUnloadFilter ec.2)).map (fun ec => ec.1)).foldl (fun acc e => acc.despawn e) w).WF :=
    despawn_fold_WF _ w hw
  have hW0 : ({ ((w.entities.filter (fun ec => defaultUnloadFilter ec.2)).map (fun ec => ec.1)).foldl (fun acc e => acc.despawn e) w with resources := data.resources.foldl (fun rs kv => insertKey rs kv.1 kv.2) (((w.entities.filter (fun ec => defaultUnloadFilter ec.2)).map (fun ec => ec.1)).foldl (fun acc e => acc.despawn e) w).resources } : World).WF := hWU
  have hkeys3aux : ∀ (w2 : World) (em2 : EMap),
      ((if mapper.isEmpty then w2 else em2.foldl (fun acc p => if acc.isLive p.2 then mapper.replace acc p.2 else acc) w2) : World).entities.map Prod.fst
        = w2.entities.map Prod.fst := by
    intro w2 em2
    by_cases hmE : mapper.isEmpty = true
    · rw [if_pos hmE]
    · rw [if_neg hmE, replace_fold_keys]
  have main : ∀ (w0 : World) (em2 : EMap) (w2 w3 : World),
      w0.WF →
      em2 = (writeSceneEntities data.entities (allocSceneEntities data.entities w0 [])).2 →
      w2 = (writeSceneEntities data.entities (allocSceneEntities data.entities w0 [])).1 →
      w3.entities.map Prod.fst = w2.entities.map Prod.fst →
      ∀ p ∈ data.entities,
        ∃ l, lookupE em2 p.1 = some l
          ∧ (em2.foldl (fun acc p => if acc.isLive p.2 then acc.insertComp p.2 saveKey saveVal else acc) w3).lookupComp l saveKey = some saveVal
          ∧ ∃ cs, (em2.foldl (fun acc p => if acc.isLive p.2 then acc.insertComp p.2 saveKey saveVal else acc) w3).getComps l = some cs
              ∧ defaultSaveQuery cs = true ∧ defaultUnloadFilter cs = true := by
    intro w0 em2 w2 w3 hw0 hem2 hw2 hkeys3 p hp
    obtain ⟨pa, _pb, pc, _pd, _pe⟩ := allocSceneEntities_spec data.entities w0 []
      hw0 (by simp) (by simp) (by simp) hnd (fun q _ => rfl)
    obtain ⟨_qa, qb, qc, _qd, _qe⟩ := writeSceneEntities_spec data.entities
      (allocSceneEntities data.entities w0 []) pc hnd hcnd pa
    obtain ⟨lid, hlid, hcomp⟩ := pa p hp
    have hlidem : lookupE em2 p.1 = some lid := by
      rw [hem2]
      exact qc p.1 lid hlid
    have hliveA : (allocSceneEntities data.entities w0 []).1.isLive lid = true := by
      unfold World.isLive
      rw [hcomp]
      rfl
    have hliveB : w2.isLive lid = true := by
      rw [hw2, isLive_congr_keys (allocSceneEntities data.entities w0 []).1 _ qb lid]
      exact hliveA
    have hliveW3 : w3.isLive lid = true := by
      rw [isLive_congr_keys w2 w3 hkeys3 lid]
      exact hliveB
    obtain ⟨_ra, _rb, _rc, rd⟩ := insert_fold_spec saveKey saveVal em2 w3
    have hins := rd (p.1, lid) (mem_of_lookupE em2 p.1 lid hlidem) hliveW3
    obtain ⟨cs, hcs, hkcs⟩ := lookupComp_some_getComps _ lid saveKey saveVal hins
    refine ⟨lid, hlidem, hins, cs, hcs, ?_, ?_⟩
    · show (lookupKey cs saveKey).isSome = true
      rw [hkcs]
      rfl
    · simp [defaultUnloadFilter, hasKey, hkcs]
  rw [hlp]
  refine ⟨⟨_⟩, rfl, rfl, ?_⟩
  intro p hp
  exact main _ _ _ _ hW0 rfl rfl (hkeys3aux _ _) p hp

/-- Claim C10 witness: a concrete successful load marks the loaded entity
with `Save`. -/
theorem C10_loaded_entities_save_marked_witness :
    ∃ loaded,
      (load_pipeline ⟨true, true, true⟩ ⟨[(10, [(2, ⟨5, []⟩)])], []⟩ ⟨[]⟩ [2]
          ⟨[], [], 0⟩).2.1 = some loaded
      ∧ (load_pipeline ⟨true, true, true⟩ ⟨[(10, [(2, ⟨5, []⟩)])], []⟩ ⟨[]⟩ [2]
          ⟨[], [], 0⟩).2.2 = [LoadEvt.OnLoaded]
      ∧ ∀ p ∈ (⟨[(10, [(2, ⟨5, []⟩)])], []⟩ : Scene).entities,
          ∃ l, lookupE loaded.entity_map p.1 = some l
            ∧ (load_pipeline ⟨true, true, true⟩ ⟨[(10, [(2, ⟨5, []⟩)])], []⟩ ⟨[]⟩ [2]
                ⟨[], [], 0⟩).1.lookupComp l saveKey = some saveVal
            ∧ ∃ cs, (load_pipeline ⟨true, true, true⟩ ⟨[(10, [(2, ⟨5, []⟩)])], []⟩ ⟨[]⟩ [2]
                ⟨[], [], 0⟩).1.getComps l = some cs
                ∧ defaultSaveQuery cs = true ∧ defaultUnloadFilter cs = true :=
  C10_loaded_entities_save_marked ⟨true, true, true⟩ ⟨[(10, [(2, ⟨5, []⟩)])], []⟩
    ⟨[]⟩ [2] ⟨[], [], 0⟩ rfl rfl rfl (by decide) (by decide) (by decide) (by decide)

-- ---------------------------------------------------------------------------
-- Claim C8: dangling references are a soft condition
-- ---------------------------------------------------------------------------

/-- Claim C8 counterexample: the `Loaded` result does not make dangling
references observable.  A load whose data holds a dangling reference (10
references 99, which is absent from the snapshot) produces exactly the same
`Loaded` resource and terminal events as a load of a snapshot in which 99
was genuinely saved — the two are indistinguishable from the load result. -/
theorem C8_counterexample :
    (load_pipeline ⟨true, true, true⟩ ⟨[(10, [(2, ⟨0, [99]⟩)])], []⟩ ⟨[]⟩ [2]
        ⟨[], [], 0⟩).2
      = (load_pipeline ⟨true, true, true⟩ ⟨[(10, [(2, ⟨0, [99]⟩)]), (99, [])], []⟩
        ⟨[]⟩ [2] ⟨[], [], 0⟩).2
    ∧ (load_pipeline ⟨true, true, true⟩ ⟨[(10, [(2, ⟨0, [99]⟩)])], []⟩ ⟨[]⟩ [2]
        ⟨[], [], 0⟩).2.1.isSome = true
    ∧ ¬ (99 ∈ (⟨[(10, [(2, ⟨0, [99]⟩)])], []⟩ : Scene).entities.map Prod.fst)
    ∧ (99 ∈ (⟨[(10, [(2, ⟨0, [99]⟩)]), (99, [])], []⟩ : Scene).entities.map Prod.fst) := by
  refine ⟨by decide, by decide, by decide, by decide⟩

/-- Claim C8 amended: a load of decodable data whose types are all
registered always reaches its successful finish and emits `Loaded`
(`OnLoaded`), regardless of dangling entity references — no reference
validation occurs; but the `Loaded` payload carries only the entity map and
contains no count or list of dangling references (they are observable only
in the error log, and the payload of a dangling load can coincide with that
of a fully saved one — see the counterexample). -/
theorem C8_dangling_soft (env : LoadEnv) (data : Scene) (mapper : SceneMapper)
    (reg : Registry) (w : World)
    (h1 : env.ioOk = true) (h2 : env.parseOk = true) (h3 : env.decodeOk = true)
    (hreg : sceneRegistered reg data = true) :
    ∃ loaded, (load_pipeline env data mapper reg w).2.1 = some loaded
      ∧ (load_pipeline env data mapper reg w).2.2 = [LoadEvt.OnLoaded] := by
  have hlp := load_pipeline_ok_eq env data mapper reg w _ _ _ _ _ h1 h2 h3 hreg
    rfl rfl rfl rfl rfl
  rw [hlp]
  exact ⟨⟨_⟩, rfl, rfl⟩

/-- Claim C8 witness: a concrete load with a dangling reference finishes
successfully and emits `OnLoaded`. -/
theorem C8_dangling_soft_witness :
    ∃ loaded,
      (load_pipeline ⟨true, true, true⟩ ⟨[(10, [(2, ⟨0, [99]⟩)])], []⟩ ⟨[]⟩ [2]
          ⟨[], [], 5⟩).2.1 = some loaded
      ∧ (load_pipeline ⟨true, true, true⟩ ⟨[(10, [(2, ⟨0, [99]⟩)])], []⟩ ⟨[]⟩ [2]
          ⟨[], [], 5⟩).2.2 = [LoadEvt.OnLoaded] :=
  C8_dangling_soft ⟨true, true, true⟩ ⟨[(10, [(2, ⟨0, [99]⟩)])], []⟩ ⟨[]⟩ [2]
    ⟨[], [], 5⟩ rfl rfl rfl (by decide)

-- ---------------------------------------------------------------------------
-- Claim C1: round trip
-- ---------------------------------------------------------------------------

theorem foldl_const {α : Type} :
    ∀ (l : List α) (w : World), l.foldl (fun acc _ => acc) w = w := by
  intro l
  induction l with
  | nil => exact fun w => rfl
  | cons e rest ih => exact fun w => ih w

theorem WF_set_resources (u : World) (r : Comps) (h : u.WF) :
    (World.mk u.entities r u.nextId).WF := h

theorem buildScene_keys (reg : Registry) (cf rf : SceneFilter) (w : World)
    (sel : List EntityId) :
    (buildScene reg cf rf w sel).entities.map Prod.fst = sel := by
  show (sel.map _).map Prod.fst = sel
  rw [List.map_map]
  show List.map (fun e => e) sel = sel
  exact map_self sel _ (fun e _ => rfl)

theorem buildScene_registered (reg : Registry) (cf : SceneFilter) (w : World)
    (sel : List EntityId) :
    sceneRegistered reg (buildScene reg cf .deny_all w sel) = true := by
  unfold sceneRegistered buildScene
  rw [Bool.and_eq_true]
  constructor
  · rw [List.all_eq_true]
    intro p hp
    obtain ⟨e, _he, heq⟩ := List.mem_map.1 hp
    rw [← heq]
    rw [List.all_eq_true]
    intro kv hkv
    have hpred := List.of_mem_filter hkv
    rw [Bool.and_eq_true] at hpred
    exact hpred.1
  · rw [List.all_eq_true]
    intro kv hkv
    have hpred := List.of_mem_filter hkv
    rw [Bool.and_eq_true] at hpred
    simp [SceneFilter.deny_all, SceneFilter.allows] at hpred

theorem buildScene_comps_nodup (reg : Registry) (cf rf : SceneFilter) (w : World)
    (sel : List EntityId) (hw : w.WF) :
    ∀ p ∈ (buildScene reg cf rf w sel).entities, (p.2.map Prod.fst).Nodup := by
  intro p hp
  obtain ⟨e, _he, heq⟩ := List.mem_map.1 hp
  rw [← heq]
  show ((extractComps reg cf ((w.getComps e).getD [])).map Prod.fst).Nodup
  have hbase : (((w.getComps e).getD []).map Prod.fst).Nodup := by
    cases hc : w.getComps e with
    | none => simp
    | some cs =>
      show ((cs : Comps).map Prod.fst).Nodup
      exact hw.2.2 (e, cs) (mem_of_findComps w.entities e cs hc)
  exact ((List.filter_sublist _).map _).nodup hbase

theorem mem_scene_of_sel (reg : Registry) (cf rf : SceneFilter) (w : World)
    (sel : List EntityId) (e : EntityId) (he : e ∈ sel) :
    (e, extractComps reg cf ((w.getComps e).getD []))
      ∈ (buildScene reg cf rf w sel).entities :=
  List.mem_map.2 ⟨e, he, rfl⟩

/-- Claim C1: round trip.  Saving a world `G` under an `EntityFilter` `F`
(with the default save input: all serializable components, no resources, no
mapper) produces exactly the scene built from the selected entities; loading
that scene into a world yields an entity map defined and injective on the
selected set, and each loaded entity carries the same registered component
data as its saved counterpart with every reference to a selected entity
remapped to that entity's loaded counterpart. -/
theorem C1_round_trip (G : World) (F : EntityFilter) (w : World) (reg : Registry)
    (hG : G.WF) (hw : w.WF) (hreg : reg.contains saveKey = false) :
    letI sel := selectEntities (fun _ => true) F G
    letI sc := buildScene reg SceneFilter.allow_all SceneFilter.deny_all G sel
    letI out := load_pipeline ⟨true, true, true⟩ sc ⟨[]⟩ reg w
    (save_world (fun _ => true) { SaveInput.default with entities := F } .File
        ⟨true, true, true⟩ reg G).1 = Except.ok ⟨sc, ⟨[]⟩⟩
    ∧ ∃ em, out.2.1 = some ⟨em⟩
      ∧ (∀ e ∈ sel, ∃ l, lookupE em e = some l)
      ∧ (∀ e₁ ∈ sel, ∀ e₂ ∈ sel, lookupE em e₁ = lookupE em e₂ → e₁ = e₂)
      ∧ (∀ e ∈ sel, ∀ l, lookupE em e = some l →
          ∀ k v, reg.contains k = true → G.lookupComp e k = some v →
            ∃ v', out.1.lookupComp l k = some v'
              ∧ v'.data = v.data
              ∧ List.Forall₂ (fun r r' => r ∈ sel → lookupE em r = some r')
                  v.refs v'.refs) := by
  have hselnd : (selectEntities (fun _ => true) F G).Nodup :=
    selectEntities_nodup _ F G hG.1
  have hscne : (buildScene reg SceneFilter.allow_all SceneFilter.deny_all G
      (selectEntities (fun _ => true) F G)).entities.map Prod.fst
      = selectEntities (fun _ => true) F G :=
    buildScene_keys reg _ _ G _
  have hscnd : ((buildScene reg SceneFilter.allow_all SceneFilter.deny_all G
      (selectEntities (fun _ => true) F G)).entities.map Prod.fst).Nodup := by
    rw [hscne]
    exact hselnd
  have hregsc : sceneRegistered reg (buildScene reg SceneFilter.allow_all
      SceneFilter.deny_all G (selectEntities (fun _ => true) F G)) = true :=
    buildScene_registered reg _ G _
  constructor
  · -- the save pipeline emits exactly the built scene
    have hstep : (save_world (fun _ => true) { SaveInput.default with entities := F } .File
        ⟨true, true, true⟩ reg G).1
        = writeOutput .File ⟨true, true, true⟩
          (buildScene reg SceneFilter.allow_all SceneFilter.deny_all
            ((selectEntities (fun _ => true) F G).foldl (fun acc _ => acc) G)
            (selectEntities (fun _ => true) F G)) := rfl
    rw [hstep, foldl_const]
    rfl
  · -- the load side
    have hlp := load_pipeline_ok_eq ⟨true, true, true⟩
      (buildScene reg SceneFilter.allow_all SceneFilter.deny_all G
        (selectEntities (fun _ => true) F G)) ⟨[]⟩ reg w _ _ _ _ _
      rfl rfl rfl hregsc rfl rfl rfl rfl rfl
    have hWU : (((w.entities.filter (fun ec => defaultUnloadFilter ec.2)).map (fun ec => ec.1)).foldl (fun acc e => acc.despawn e) w).WF :=
      despawn_fold_WF _ w hw
    have main : ∀ (w0 : World) (em2 : EMap) (w3 : World),
        w0.WF →
        em2 = (writeSceneEntities (buildScene reg SceneFilter.allow_all SceneFilter.deny_all G (selectEntities (fun _ => true) F G)).entities (allocSceneEntities (buildScene reg SceneFilter.allow_all SceneFilter.deny_all G (selectEntities (fun _ => true) F G)).entities w0 [])).2 →
        w3 = (writeSceneEntities (buildScene reg SceneFilter.allow_all SceneFilter.deny_all G (selectEntities (fun _ => true) F G)).entities (allocSceneEntities (buildScene reg SceneFilter.allow_all SceneFilter.deny_all G (selectEntities (fun _ => true) F G)).entities w0 [])).1 →
        (∀ e ∈ selectEntities (fun _ => true) F G, ∃ l, lookupE em2 e = some l)
        ∧ (∀ e₁ ∈ selectEntities (fun _ => true) F G,
            ∀ e₂ ∈ selectEntities (fun _ => true) F G,
              lookupE em2 e₁ = lookupE em2 e₂ → e₁ = e₂)
        ∧ (∀ e ∈ selectEntities (fun _ => true) F G, ∀ l, lookupE em2 e = some l →
            ∀ k v, reg.contains k = true → G.lookupComp e k = some v →
              ∃ v', (em2.foldl (fun acc p => if acc.isLive p.2 then acc.insertComp p.2 saveKey saveVal else acc) w3).lookupComp l k = some v'
                ∧ v'.data = v.data
                ∧ List.Forall₂ (fun r r' => r ∈ selectEntities (fun _ => true) F G → lookupE em2 r = some r')
                    v.refs v'.refs) := by
      intro w0 em2 w3 hw0 hem2 hw3
      obtain ⟨pa, _pb, pc, _pd, _pe⟩ := allocSceneEntities_spec
        (buildScene reg SceneFilter.allow_all SceneFilter.deny_all G (selectEntities (fun _ => true) F G)).entities
        w0 [] hw0 (by simp) (by simp) (by simp) hscnd (fun q _ => rfl)
      obtain ⟨qa, _qb, qc, _qd, qe⟩ := writeSceneEntities_spec
        (buildScene reg SceneFilter.allow_all SceneFilter.deny_all G (selectEntities (fun _ => true) F G)).entities
        (allocSceneEntities (buildScene reg SceneFilter.allow_all SceneFilter.deny_all G (selectEntities (fun _ => true) F G)).entities w0 [])
        pc hscnd (buildScene_comps_nodup reg _ _ G _ hG) pa
      have hmem : ∀ e ∈ selectEntities (fun _ => true) F G,
          (e, extractComps reg SceneFilter.allow_all ((G.getComps e).getD []))
            ∈ (buildScene reg SceneFilter.allow_all SceneFilter.deny_all G (selectEntities (fun _ => true) F G)).entities :=
        fun e he => mem_scene_of_sel reg _ _ G _ e he
      have hsel_lookup : ∀ e ∈ selectEntities (fun _ => true) F G,
          ∃ l, lookupE (allocSceneEntities (buildScene reg SceneFilter.allow_all SceneFilter.deny_all G (selectEntities (fun _ => true) F G)).entities w0 []).2 e = some l
            ∧ lookupE em2 e = some l := by
        intro e he
        obtain ⟨l, hl, _⟩ := pa _ (hmem e he)
        exact ⟨l, hl, by rw [hem2]; exact qc e l hl⟩
      refine ⟨?_, ?_, ?_⟩
      · intro e he
        obtain ⟨l, _, hl2⟩ := hsel_lookup e he
        exact ⟨l, hl2⟩
      · intro e₁ he₁ e₂ he₂ heq
        obtain ⟨l₁, _, hl₁⟩ := hsel_lookup e₁ he₁
        obtain ⟨l₂, _, hl₂⟩ := hsel_lookup e₂ he₂
        rw [hl₁, hl₂] at heq
        injection heq with heq
        rw [← heq] at hl₂
        have hvnd : (em2.map Prod.snd).Nodup := by
          rw [hem2]
          exact qa.2.2.1
        exact lookupE_inj em2 hvnd e₁ e₂ l₁ hl₁ hl₂
      · intro e he l hl k v hk hkv
        obtain ⟨l₀, hl₀, hl₀2⟩ := hsel_lookup e he
        have hll : l = l₀ := Option.some.inj (hl.symm.trans hl₀2)
        obtain ⟨cs₀, hcs₀, hkcs₀⟩ := lookupComp_some_getComps G e k v hkv
        have hkvx : lookupKey (extractComps reg SceneFilter.allow_all ((G.getComps e).getD [])) k = some v := by
          rw [hcs₀]
          show lookupKey (cs₀.filter (fun kv => reg.contains kv.1 && SceneFilter.allow_all.allows kv.1)) k = some v
          rw [lookupKey_filter cs₀ (fun x => reg.contains x && SceneFilter.allow_all.allows x) k]
          rw [if_pos]
          · exact hkcs₀
          · rw [hk]
            rfl
        obtain ⟨v', hv'1, hv'2, hv'3⟩ := qe _ (hmem e he) l₀ hl₀ k v hkvx
        have hkne : k ≠ saveKey := by
          intro hc
          rw [hc, hreg] at hk
          exact absurd hk (by simp)
        obtain ⟨ra, _rb, _rc, _rd⟩ := insert_fold_spec saveKey saveVal em2 w3
        refine ⟨v', ?_, hv'2, ?_⟩
        · rw [hll, ra l₀ k hkne, hw3]
          exact hv'1
        · refine hv'3.imp ?_
          intro a b hab hasel
          obtain ⟨la, hla, hla2⟩ := hsel_lookup a hasel
          rw [hla2, hab la hla]
    rw [hlp]
    refine ⟨_, rfl, ?_, ?_, ?_⟩
    · exact (main _ _ _ (WF_set_resources _ _ hWU) rfl rfl).1
    · exact (main _ _ _ (WF_set_resources _ _ hWU) rfl rfl).2.1
    · exact (main _ _ _ (WF_set_resources _ _ hWU) rfl rfl).2.2

theorem C1_round_trip_witness :
    letI G : World := ⟨[(5, [(2, ⟨7, [6]⟩)]), (6, [(3, ⟨9, []⟩)])], [], 7⟩
    letI sel := selectEntities (fun _ => true) EntityFilter.any G
    letI sc := buildScene [2, 3] SceneFilter.allow_all SceneFilter.deny_all G sel
    letI out := load_pipeline ⟨true, true, true⟩ sc ⟨[]⟩ [2, 3] ⟨[], [], 0⟩
    (save_world (fun _ => true) { SaveInput.default with entities := EntityFilter.any } .File
        ⟨true, true, true⟩ [2, 3] G).1 = Except.ok ⟨sc, ⟨[]⟩⟩
    ∧ ∃ em, out.2.1 = some ⟨em⟩
      ∧ (∀ e ∈ sel, ∃ l, lookupE em e = some l)
      ∧ (∀ e₁ ∈ sel, ∀ e₂ ∈ sel, lookupE em e₁ = lookupE em e₂ → e₁ = e₂)
      ∧ (∀ e ∈ sel, ∀ l, lookupE em e = some l →
          ∀ k v, List.contains [2, 3] k = true → World.lookupComp G e k = some v →
            ∃ v', out.1.lookupComp l k = some v'
              ∧ v'.data = v.data
              ∧ List.Forall₂ (fun r r' => r ∈ sel → lookupE em r = some r')
                  v.refs v'.refs) :=
  C1_round_trip ⟨[(5, [(2, ⟨7, [6]⟩)]), (6, [(3, ⟨9, []⟩)])], [], 7⟩
    EntityFilter.any ⟨[], [], 0⟩ [2, 3] (by decide) (by decide) (by decide)

-- ---------------------------------------------------------------------------
-- Claim C7: EntityFilter semantics
-- ---------------------------------------------------------------------------

/-- Claim C7: a filter `Allow(S)` selects an entity iff it is a member of
`S`, and `Block(S)` selects it iff it is not a member; hence `Allow ∅`
selects nothing, `Block ∅` (the default filter, `EntityFilter::any`) selects
everything. -/
theorem C7_entity_filter_semantics (s : List EntityId) (e : EntityId) :
    ((EntityFilter.Allow s).filterEntity e = true ↔ e ∈ s)
    ∧ ((EntityFilter.Block s).filterEntity e = true ↔ e ∉ s)
    ∧ (EntityFilter.Allow []).filterEntity e = false
    ∧ (EntityFilter.Block []).filterEntity e = true
    ∧ EntityFilter.any = EntityFilter.Block [] := by
  refine ⟨?_, ?_, ?_, ?_, rfl⟩ <;> simp [EntityFilter.filterEntity, List.elem_iff]

-- ---------------------------------------------------------------------------
-- Claim C6: mapper registry
-- ---------------------------------------------------------------------------

/-- Claim C6 counterexample: registering a second mapper for the same input
component type does not replace the first rule.  Both rules remain in the
list, and `apply` produces both surrogate components, so two rules for input
type 5 are simultaneously active. -/
theorem C6_counterexample :
    letI sm := (SceneMapper.map (SceneMapper.map ⟨[]⟩ ⟨5, 10, fun v => v⟩)
      ⟨5, 11, fun v => v⟩)
    letI w : World := ⟨[(0, [(5, ⟨42, []⟩)])], [], 1⟩
    sm.rules.map MapRule.inKey = [5, 5]
    ∧ (sm.apply w 0).lookupComp 0 10 = some ⟨42, []⟩
    ∧ (sm.apply w 0).lookupComp 0 11 = some ⟨42, []⟩ :=
  ⟨rfl, rfl, rfl⟩

/-- Claim C6 amended: `SceneMapper::map` appends the new rule to the list —
a second registration for an input type adds a second active rule for that
type rather than replacing the first — and `apply`, `replace` and `undo`
execute the rules in registration (list) order. -/
theorem C6_mapper_append_order (sm : SceneMapper) (r : MapRule) :
    (sm.map r).rules = sm.rules ++ [r]
    ∧ ((sm.map r).rules.filter (fun q => q.inKey == r.inKey)).length
        = (sm.rules.filter (fun q => q.inKey == r.inKey)).length + 1
    ∧ ∀ (r₀ : MapRule) (rs : List MapRule) (w : World) (e : EntityId),
        SceneMapper.apply ⟨r₀ :: rs⟩ w e
            = SceneMapper.apply ⟨rs⟩ (applyRule r₀ w e) e
        ∧ SceneMapper.replace ⟨r₀ :: rs⟩ w e
            = SceneMapper.replace ⟨rs⟩ (replaceRule r₀ w e) e
        ∧ SceneMapper.undo ⟨r₀ :: rs⟩ w e
            = SceneMapper.undo ⟨rs⟩ (undoRule r₀ w e) e := by
  refine ⟨rfl, ?_, fun r₀ rs w e => ⟨rfl, rfl, rfl⟩⟩
  simp [SceneMapper.map, List.filter_append]

-- ---------------------------------------------------------------------------
-- Claim C5: notification contract
-- ---------------------------------------------------------------------------

/-- Claim C5 counterexample: a load invocation that fails (here with an `Io`
error while reading the source) emits no terminal event at all — not one
terminal event carrying the typed error. -/
theorem C5_counterexample :
    (load_pipeline ⟨false, true, true⟩ ⟨[], []⟩ ⟨[]⟩ [] ⟨[], [], 0⟩).2.2 = []
    ∧ (load_pipeline ⟨false, true, true⟩ ⟨[], []⟩ ⟨[]⟩ [] ⟨[], [], 0⟩).2.1 = none :=
  ⟨rfl, rfl⟩

/-- Claim C5 amended: a save invocation always emits exactly one terminal
`OnSave` event carrying its result (success payload or typed error); a load
invocation emits exactly one terminal `OnLoaded` event (carrying no payload)
when it succeeds and emits no event when it fails (the error is only
logged). -/
theorem C5_terminal_events (qf : Comps → Bool) (input : SaveInput)
    (out : SaveOutputKind) (envS : SaveEnv) (reg : Registry) (w : World)
    (envL : LoadEnv) (data : Scene) (mapper : SceneMapper) (w' : World) :
    (save_on qf input out envS reg w).2.2
        = [SaveEvt.OnSave (save_world qf input out envS reg w).1]
    ∧ ((load_pipeline envL data mapper reg w').2.2 =
        match (load_pipeline envL data mapper reg w').2.1 with
        | some _ => [LoadEvt.OnLoaded]
        | none => []) := by
  constructor
  · rfl
  · have h : ∀ r : Except LoadError Loaded,
        (insert_loaded r).2 = match (insert_loaded r).1 with
          | some _ => [LoadEvt.OnLoaded]
          | none => [] := by
      intro r; cases r <;> rfl
    exact h _

-- ---------------------------------------------------------------------------
-- Claim C2: no mutation before decode succeeds
-- ---------------------------------------------------------------------------

theorem readSource_error (env : LoadEnv) (data : Scene) (mapper : SceneMapper)
    (h : env.ioOk = false ∨ env.parseOk = false ∨ env.decodeOk = false) :
    ∃ e, readSource env data mapper = .error e := by
  rcases env with ⟨io, pa, de⟩
  cases io <;> cases pa <;> cases de <;> simp_all [readSource]

/-- Claim C2: when reading the source or decoding its bytes fails (an `Io`,
`De` or `Ron` error), the load pipeline leaves the live world untouched —
no entity is despawned and no component or resource is mutated — and no
`Loaded` resource is produced: the unload step runs only after decoding has
succeeded. -/
theorem C2_no_mutation_on_read_error (env : LoadEnv) (data : Scene)
    (mapper : SceneMapper) (reg : Registry) (w : World)
    (h : env.ioOk = false ∨ env.parseOk = false ∨ env.decodeOk = false) :
    (load_pipeline env data mapper reg w).1 = w
    ∧ (load_pipeline env data mapper reg w).2.1 = none := by
  obtain ⟨e, he⟩ := readSource_error env data mapper h
  simp [load_pipeline, he, unload, write_to_world, insert_into_loaded,
    insert_loaded]

/-- Claim C2 witness: a concrete failing read leaves a concrete world
untouched. -/
theorem C2_no_mutation_on_read_error_witness :
    (load_pipeline ⟨true, false, true⟩ ⟨[(3, [(2, ⟨1, []⟩)])], []⟩ ⟨[]⟩ [2]
        ⟨[(0, [(saveKey, saveVal)])], [], 1⟩).1
      = ⟨[(0, [(saveKey, saveVal)])], [], 1⟩ :=
  (C2_no_mutation_on_read_error ⟨true, false, true⟩ ⟨[(3, [(2, ⟨1, []⟩)])], []⟩
    ⟨[]⟩ [2] ⟨[(0, [(saveKey, saveVal)])], [], 1⟩ (by simp)).1

end MoonshineSave
